import Mathlib

/-!
# Homebrew menu (`source/ui/menus/homebrew.cpp`)

A shallow embedding of the homebrew menu of sphaira: the entry list, the grid
cursor (`m_index`), the scroll offset (`m_start`), the sorter used by
`Menu::Sort`, the picker and delete callbacks, the lazy icon load of
`Menu::Draw` and the play log merge of `Menu::ScanHomebrew`.

* Machine integers (`u64`, `std::size_t`) are natural numbers; arithmetic
  that can wrap is written with `add64` / `sub64`, which reduce modulo
  `2 ^ 64`.
* `strcasecmp`, `atoi`, `std::sort` and minIni's `ini_browse` belong to
  libraries; they are given here by their documented behaviour.
* The filesystem, the icon reader and the renderer are outside the menu;
  their answers are arguments of the functions that use them.

The definitions come first, the theorems about them after.
-/

namespace Homebrew

/-! ## Machine arithmetic -/

/-- Number of values of an unsigned 64-bit integer. -/
def U64 : Nat := 18446744073709551616

/-- Unsigned 64-bit addition. -/
def add64 (a b : Nat) : Nat := (a + b) % 18446744073709551616

/-- Unsigned 64-bit subtraction (wraps around below zero). -/
def sub64 (a b : Nat) : Nat :=
  if b % 18446744073709551616 ≤ a % 18446744073709551616 then
    a % 18446744073709551616 - b % 18446744073709551616
  else
    a % 18446744073709551616 + 18446744073709551616 - b % 18446744073709551616

/-! ## Data model -/

/-- `Hbini`: the usage statistics merged from the play log. -/
structure Hbini where
  timestamp : Nat
  launch_count : Nat
deriving DecidableEq, Repr

/-- `FsTimeStampRaw`: the file timestamps reported by the filesystem. -/
structure FsTimeStampRaw where
  created : Nat
  modified : Nat
  accessed : Nat
  is_valid : Bool
deriving DecidableEq, Repr

/-- `NroEntry`: one scanned homebrew. `name` is the byte string returned by
`GetName()` (the bytes before the terminating NUL); `image` is the renderer
handle, `0` meaning "no image". -/
structure NroEntry where
  path : String
  name : List Nat
  size : Nat
  timestamp : FsTimeStampRaw
  hbini : Hbini
  icon : List Nat
  icon_size : Nat
  icon_offset : Nat
  image : Nat
deriving DecidableEq, Repr

/-- `SortType`, in the order of `SORT_STR`. -/
inductive SortType where
  | SortType_Updated
  | SortType_Size
  | SortType_Alphabetical
deriving DecidableEq, Repr

/-- `OrderType`, in the order of `ORDER_STR`. -/
inductive OrderType where
  | OrderType_Decending
  | OrderType_Ascending
deriving DecidableEq, Repr

open SortType OrderType

/-- The fields of `Menu` that the handlers read and write. -/
structure Menu where
  m_entries : List NroEntry
  m_index : Nat
  m_start : Nat
  m_sort : SortType
  m_order : OrderType
deriving DecidableEq, Repr

/-! ## Cursor -/

/-- `Menu::SetIndex`: stores the index and resets the scroll offset when the
index is zero. The entry lookup done for the headings is `SetIndex_entry`. -/
def SetIndex (m : Menu) (index : Nat) : Menu :=
  let m1 := { m with m_index := index }
  if m1.m_index = 0 then { m1 with m_start := 0 } else m1

/-- The lookup `m_entries[m_index]` that `Menu::SetIndex` performs after the
index is stored; `none` is the out-of-bounds read. -/
def SetIndex_entry (m : Menu) (index : Nat) : Option NroEntry :=
  (SetIndex m index).m_entries[(SetIndex m index).m_index]?

/-- Action bound to `Button::RIGHT`. -/
def Right (m : Menu) : Menu :=
  if m.m_index < sub64 m.m_entries.length 1 ∧ add64 m.m_index 1 % 3 ≠ 0 then
    SetIndex m (add64 m.m_index 1)
  else m

/-- Action bound to `Button::LEFT`. -/
def Left (m : Menu) : Menu :=
  if m.m_index ≠ 0 ∧ m.m_index % 3 ≠ 0 then
    SetIndex m (sub64 m.m_index 1)
  else m

/-- Action bound to `Button::DOWN`. -/
def Down (m : Menu) : Menu :=
  if m.m_index < sub64 m.m_entries.length 1 then
    let m1 :=
      if m.m_index < sub64 m.m_entries.length 3 then
        SetIndex m (add64 m.m_index 3)
      else
        SetIndex m (sub64 m.m_entries.length 1)
    if sub64 m1.m_index m1.m_start ≥ 9 then
      { m1 with m_start := add64 m1.m_start 3 }
    else m1
  else m

/-- Action bound to `Button::UP`. -/
def Up (m : Menu) : Menu :=
  if m.m_index ≥ 3 then
    let m1 := SetIndex m (sub64 m.m_index 3)
    if m1.m_index < m1.m_start then
      { m1 with m_start := sub64 m1.m_start 3 }
    else m1
  else m

/-! ## Sorter -/

/-- `tolower` of the C library in the "C" locale, on a byte. -/
def tolower (c : Nat) : Nat := if 65 ≤ c ∧ c ≤ 90 then c + 32 else c

/-- `strcasecmp` of the C library on the bytes of two NUL-terminated strings:
the difference of the first pair of lower-cased bytes that differ, `0` when
the terminator is reached first. The end of a list is its terminating NUL. -/
def strcasecmp : List Nat → List Nat → Int
  | [], [] => 0
  | [], c2 :: _ => 0 - (tolower c2 : Int)
  | c1 :: _, [] => (tolower c1 : Int) - 0
  | c1 :: s1, c2 :: s2 =>
    if tolower c1 ≠ tolower c2 then (tolower c1 : Int) - (tolower c2 : Int)
    else if tolower c2 = 0 then 0
    else strcasecmp s1 s2

/-- The timestamp the sorter compares for one entry: `hbini.timestamp`,
replaced by `timestamp.modified` when the file timestamp is valid and newer. -/
def effective_timestamp (e : NroEntry) : Nat :=
  let ts := e.hbini.timestamp
  if e.timestamp.is_valid = true ∧ ts < e.timestamp.modified then e.timestamp.modified else ts

/-- The `sorter` lambda of `Menu::Sort`: true when `lhs` goes before `rhs`. -/
def sorter (sort : SortType) (order : OrderType) (lhs rhs : NroEntry) : Bool :=
  match sort with
  | SortType_Updated =>
    let lhs_timestamp := effective_timestamp lhs
    let rhs_timestamp := effective_timestamp rhs
    if lhs_timestamp = rhs_timestamp then
      decide (strcasecmp lhs.name rhs.name < 0)
    else if order = OrderType_Decending then
      decide (lhs_timestamp > rhs_timestamp)
    else
      decide (lhs_timestamp < rhs_timestamp)
  | SortType_Size =>
    if lhs.size = rhs.size then
      decide (strcasecmp lhs.name rhs.name < 0)
    else if order = OrderType_Decending then
      decide (lhs.size > rhs.size)
    else
      decide (lhs.size < rhs.size)
  | SortType_Alphabetical =>
    if order = OrderType_Decending then
      decide (strcasecmp lhs.name rhs.name < 0)
    else
      decide (strcasecmp lhs.name rhs.name > 0)

/-- Insertion step of `std_sort`: `x` goes in front of the first element it
compares less than. -/
def sort_insert {α : Type} (comp : α → α → Bool) (x : α) : List α → List α
  | [] => [x]
  | y :: ys => if comp x y then x :: y :: ys else y :: sort_insert comp x ys

/-- `std::sort` of the C++ library, as an insertion sort that calls only
`comp`. The library promises a permutation of the input in which no element
compares less than an earlier one; the order of equivalent elements is left
open by the library and is not relied on below. -/
def std_sort {α : Type} (comp : α → α → Bool) : List α → List α
  | [] => []
  | x :: xs => sort_insert comp x (std_sort comp xs)

/-- `Menu::Sort`. -/
def Menu.Sort (m : Menu) : Menu :=
  { m with m_entries := std_sort (sorter m.m_sort m.m_order) m.m_entries }

/-- `Menu::SortAndFindLastFile`. -/
def SortAndFindLastFile (m : Menu) : Menu :=
  Menu.Sort m

/-- Callback of the "Sort" picker; `index_out` is the picked sort key. -/
def Sort_callback (m : Menu) (index_out : SortType) : Menu :=
  SortAndFindLastFile { m with m_sort := index_out }

/-- Callback of the "Order" picker; `index_out` is the picked direction. -/
def Order_callback (m : Menu) (index_out : OrderType) : Menu :=
  SortAndFindLastFile { m with m_order := index_out }

/-- The primary key the sorter compares for a sort type: the effective
timestamp, the size, or nothing (alphabetical compares names only). -/
def primary_key (sort : SortType) (e : NroEntry) : Nat :=
  match sort with
  | SortType_Updated => effective_timestamp e
  | SortType_Size => e.size
  | SortType_Alphabetical => 0

/-! ## Delete -/

/-- Callback of the delete confirmation box. `op_index` is the answer
(`none` when the box is dismissed), `rc` the result code of `DeleteFile`
(`R_SUCCEEDED` is `rc = 0`). -/
def Delete_callback (m : Menu) (op_index : Option Int) (rc : Nat) : Menu :=
  match op_index with
  | none => m
  | some v =>
    if v ≠ 0 then
      if rc = 0 then
        let m1 := { m with m_entries := m.m_entries.eraseIdx m.m_index }
        SetIndex m1 (if m1.m_index ≠ 0 then sub64 m1.m_index 1 else 0)
      else m
    else m

/-! ## Draw -/

/-- The external functions `Menu::Draw` calls while loading an icon, as they
answer during one frame. -/
structure Collab where
  nro_get_icon : String → Nat → Nat → List Nat
  nvgCreateImageMem : List Nat → Nat

/-- One invocation of `nro_get_icon`: the position of the entry it was made
for, and the bytes it returned. -/
structure IconCall where
  pos : Nat
  result : List Nat
deriving DecidableEq, Repr

/-- What the loops of `Menu::Draw` have done so far: the entries, the
positions bound to `e` in order, and the `nro_get_icon` invocations in order. -/
structure DrawState where
  entries : List NroEntry
  visited : List Nat
  calls : List IconCall
deriving DecidableEq, Repr

/-- The condition of the "lazy load image" block: no image, no icon bytes,
and an icon range in the file. -/
@[reducible] def needs_icon (e : NroEntry) : Prop :=
  e.image = 0 ∧ e.icon = [] ∧ e.icon_size ≠ 0 ∧ e.icon_offset ≠ 0

/-- The "lazy load image" block for the entry `e` at position `pos`. -/
def Draw_lazy_load (c : Collab) (pos : Nat) (e : NroEntry) : NroEntry × List IconCall :=
  if e.image = 0 ∧ e.icon = [] ∧ e.icon_size ≠ 0 ∧ e.icon_offset ≠ 0 then
    let e1 := { e with icon := c.nro_get_icon e.path e.icon_size e.icon_offset }
    let call : IconCall := { pos := pos, result := e1.icon }
    if e1.icon ≠ [] then
      ({ e1 with image := c.nvgCreateImageMem e1.icon }, [call])
    else (e1, [call])
  else (e, [])

/-- Body of the inner loop of `Menu::Draw` at position `pos`. -/
def Draw_body (c : Collab) (pos : Nat) (st : DrawState) : DrawState :=
  match st.entries[pos]? with
  | none => { st with visited := st.visited ++ [pos] }
  | some e =>
    { entries := st.entries.set pos (Draw_lazy_load c pos e).1,
      visited := st.visited ++ [pos],
      calls := st.calls ++ (Draw_lazy_load c pos e).2 }

/-- The loop body of `Menu::Draw` run over a list of positions in order. -/
def Draw_visit (c : Collab) : List Nat → DrawState → DrawState
  | [], st => st
  | p :: ps, st => Draw_visit c ps (Draw_body c p st)

/-- Inner loop of `Menu::Draw` (`j < 3 && pos < nro_total && i < 9`); the
first argument is `3 - j`, the columns still to go. -/
def Draw_cols (c : Collab) (nro_total : Nat) : Nat → Nat → Nat → DrawState → Nat × Nat × DrawState
  | 0, i, pos, st => (i, pos, st)
  | k + 1, i, pos, st =>
    if pos < nro_total ∧ i < 9 then
      Draw_cols c nro_total k (i + 1) (pos + 1) (Draw_body c pos st)
    else (i, pos, st)

/-- Outer loop of `Menu::Draw` (`pos < nro_total && i < 9`), with a bound on
the number of rows; `none` when the bound is used up. -/
def Draw_rows (c : Collab) (nro_total : Nat) : Nat → Nat → Nat → DrawState → Option DrawState
  | 0, _, _, _ => none
  | fuel + 1, i, pos, st =>
    if pos < nro_total ∧ i < 9 then
      let r := Draw_cols c nro_total 3 i pos st
      Draw_rows c nro_total fuel r.1 r.2.1 r.2.2
    else some st

/-- `Menu::Draw`, restricted to the entry loops: `SCROLL = m_start`,
`max_entry_display = 9`, `nro_total = m_entries.size()`. -/
def Draw (c : Collab) (m : Menu) : Option (Menu × DrawState) :=
  match Draw_rows c m.m_entries.length 10 0 m.m_start
      { entries := m.m_entries, visited := [], calls := [] } with
  | none => none
  | some st => some ({ m with m_entries := st.entries }, st)

/-- What holds of the entries `E` and the `nro_get_icon` invocations `calls`
at any point of a run of frames that started from the entries `E0`. -/
structure DrawInv (E0 E : List NroEntry) (calls : List IconCall) : Prop where
  pairwise : calls.Pairwise (fun c d => c.pos = d.pos → c.result = [])
  loaded : ∀ c ∈ calls, c.result ≠ [] → ∀ e, E[c.pos]? = some e → e.icon ≠ []
  origin : ∀ (p : Nat) (e : NroEntry), E[p]? = some e → needs_icon e →
    ∃ e0, E0[p]? = some e0 ∧ needs_icon e0
  called : ∀ c ∈ calls, ∃ e0, E0[c.pos]? = some e0 ∧ needs_icon e0

/-- One frame: the scroll offset at the time of the frame and the answers of
the external functions during it. -/
structure Frame where
  m_start : Nat
  collab : Collab

/-- A run of frames over the same entry list; returns the menu after the last
frame and all `nro_get_icon` invocations in order. -/
def DrawFrames : List Frame → Menu → Option (Menu × List IconCall)
  | [], m => some (m, [])
  | f :: fs, m =>
    match Draw f.collab { m with m_start := f.m_start } with
    | none => none
    | some (m1, st) =>
      match DrawFrames fs m1 with
      | none => none
      | some (m2, calls) => some (m2, st.calls ++ calls)

/-! ## The play log merge -/

/-- One record delivered by `ini_browse` to its callback. -/
structure IniTriple where
  Section : String
  Key : String
  Value : String
deriving DecidableEq, Repr

/-- `isspace` of the C library in the "C" locale. -/
def isspace (c : Char) : Bool := c.toNat = 32 ∨ (9 ≤ c.toNat ∧ c.toNat ≤ 13)

/-- `isdigit` of the C library. -/
def isdigit (c : Char) : Bool := 48 ≤ c.toNat ∧ c.toNat ≤ 57

/-- The white space `atoi` skips at the start of its argument. -/
def atoi_skip : List Char → List Char
  | [] => []
  | c :: cs => if isspace c then atoi_skip cs else c :: cs

/-- The decimal digits `atoi` reads, most significant first, ending at the
first character that is not a digit. -/
def atoi_digits : List Char → Nat → Nat
  | [], acc => acc
  | c :: cs, acc => if isdigit c then atoi_digits cs (acc * 10 + (c.toNat - 48)) else acc

/-- The value `strtol` returns for the number it has read: the number
itself, or the nearest end of the range of `long` (64 bits) when it lies
outside. -/
def strtol_clamp (v : Int) : Int :=
  if v < -9223372036854775808 then -9223372036854775808
  else if 9223372036854775807 < v then 9223372036854775807
  else v

/-- Conversion of a `long` to `int`: the low 32 bits, read as a signed
number. -/
def long_to_int (v : Int) : Int :=
  if -2147483648 ≤ v ∧ v < 2147483648 then v
  else (v + 2147483648) % 4294967296 - 2147483648

/-- `atoi` of the C library, which is `(int) strtol(s, NULL, 10)`: white
space, an optional sign, then the longest run of decimal digits; `0` when
there is no digit; the number read is cut to the 32 bits of an `int`. -/
def atoi (s : String) : Int :=
  match atoi_skip s.data with
  | [] => 0
  | c :: cs =>
    if c.toNat = 45 then long_to_int (strtol_clamp (- (atoi_digits cs 0 : Int)))
    else if c.toNat = 43 then long_to_int (strtol_clamp (atoi_digits cs 0 : Int))
    else long_to_int (strtol_clamp (atoi_digits (c :: cs) 0 : Int))

/-- The number that a run of decimal digits spells. -/
def decimal_value (ds : List Char) : Nat :=
  ds.foldl (fun acc c => acc * 10 + (c.toNat - 48)) 0

/-- Whether the string starts, after white space and an optional sign, with
a decimal digit, that is, whether `atoi` finds a number to read. -/
def atoi_has_number (s : String) : Bool :=
  match atoi_skip s.data with
  | [] => false
  | c :: cs =>
    if c.toNat = 45 ∨ c.toNat = 43 then
      match cs with
      | [] => false
      | d :: _ => isdigit d
    else isdigit c

/-- Conversion of an `int` to `u64` (the type of `Hbini::timestamp`). -/
def int_to_u64 (v : Int) : Nat := (v % 18446744073709551616).toNat

/-- Conversion of an `int` to `u32` (the type of `Hbini::launch_count`). -/
def int_to_u32 (v : Int) : Nat := (v % 4294967296).toNat

/-- Modelled from the spec: `fs::FsPath::operator==` against a C string is
declared in `fs.hpp`, which is not among the sources; the spec calls the
match "exact path equality". -/
def FsPath_eq (path : String) (Section : String) : Bool := path == Section

/-- `IniUser`: the entries (held by reference), the `Hbini` of the entry
found for the last section (`ini`, here the position of that entry, `none`
for `nullptr`) and the last section seen. -/
structure IniUser where
  entires : List NroEntry
  ini : Option Nat
  last_section : String
deriving DecidableEq, Repr

/-- The lookup loop of the visitor: the position of the first entry whose
path is `Section`. -/
def ini_find : List NroEntry → String → Option Nat
  | [], _ => none
  | e :: es, Section =>
    if FsPath_eq e.path Section = true then some 0
    else (ini_find es Section).map (fun i => i + 1)

/-- What the visitor does to the `Hbini` that `ini` points to. -/
def ini_assign (Key Value : String) (h : Hbini) : Hbini :=
  if Key = "timestamp" then { h with timestamp := int_to_u64 (atoi Value) }
  else if Key = "launch_count" then { h with launch_count := int_to_u32 (atoi Value) }
  else h

/-- A write through the pointer `ini`: the `Hbini` of the entry at that
position is replaced. -/
def ini_write (entries : List NroEntry) (ini : Nat) (f : Hbini → Hbini) : List NroEntry :=
  match entries[ini]? with
  | none => entries
  | some e => entries.set ini { e with hbini := f e.hbini }

/-- The visitor lambda passed to `ini_browse`; the second component is its
return value. -/
def ini_visitor (user : IniUser) (t : IniTriple) : IniUser × Int :=
  let user1 : IniUser :=
    if user.last_section ≠ t.Section then
      { user with last_section := t.Section, ini := ini_find user.entires t.Section }
    else user
  let user2 : IniUser :=
    match user1.ini with
    | some i => { user1 with entires := ini_write user1.entires i (ini_assign t.Key t.Value) }
    | none => user1
  (user2, 1)

/-- The pointer the visitor writes through for the record `t`: looked up
when the section differs from the last one, kept otherwise. -/
def ini_target (user : IniUser) (t : IniTriple) : Option Nat :=
  if user.last_section ≠ t.Section then ini_find user.entires t.Section else user.ini

/-- `ini_browse` of minIni over the records of the file: the callback is
called for each record in order until it returns `0`. -/
def ini_browse {σ : Type} (Callback : σ → IniTriple → σ × Int) : List IniTriple → σ → σ
  | [], user => user
  | t :: ts, user =>
    if (Callback user t).2 = 0 then (Callback user t).1
    else ini_browse Callback ts (Callback user t).1

/-- The merge of the play log into the entries, as done in
`Menu::ScanHomebrew`: `ini_browse` with the visitor on a fresh `IniUser`. -/
def merge_playlog (entries : List NroEntry) (playlog : List IniTriple) : List NroEntry :=
  (ini_browse ini_visitor playlog
    { entires := entries, ini := none, last_section := "" }).entires

/-- `Menu::ScanHomebrew`. `scanned` is the content of `m_entries` when
`nro_scan` returns, `playlog` the records of the play log file. -/
def ScanHomebrew (m : Menu) (scanned : List NroEntry) (playlog : List IniTriple) : Menu :=
  let m1 := { m with m_entries := scanned }
  let m2 := { m1 with m_entries := merge_playlog m1.m_entries playlog }
  SetIndex (Menu.Sort m2) 0

/-- The merge as the claim words it: each record on its own looks up the
first entry whose path equals the section and applies the key to it; the
record is ignored when there is no such entry. -/
def naive_merge_step (entries : List NroEntry) (t : IniTriple) : List NroEntry :=
  match entries.findIdx? (fun e => e.path == t.Section) with
  | none => entries
  | some i =>
    entries.modify
      (fun e =>
        if t.Key = "timestamp" then
          { e with hbini := { e.hbini with timestamp := int_to_u64 (atoi t.Value) } }
        else if t.Key = "launch_count" then
          { e with hbini := { e.hbini with launch_count := int_to_u32 (atoi t.Value) } }
        else e) i

/-- The naive merge over a stream of records. -/
def naive_merge (entries : List NroEntry) (playlog : List IniTriple) : List NroEntry :=
  playlog.foldl naive_merge_step entries

/-- An entry with its usage statistics blanked: all the fields the merge
does not write. -/
def strip_hbini (e : NroEntry) : NroEntry :=
  { e with hbini := { timestamp := 0, launch_count := 0 } }

/-- The lookup `m_entries[m_index]` made by the `SetIndex(0)` that ends
`Menu::ScanHomebrew`; `none` is the out-of-bounds read. -/
def ScanHomebrew_entry (m : Menu) (scanned : List NroEntry) (playlog : List IniTriple) :
    Option NroEntry :=
  SetIndex_entry
    (Menu.Sort { m with m_entries := merge_playlog scanned playlog }) 0

/-- The lookup `m_entries[m_index]` made by the `SetIndex` call of a
confirmed, successful delete; `none` is the out-of-bounds read. -/
def Delete_entry (m : Menu) : Option NroEntry :=
  SetIndex_entry { m with m_entries := m.m_entries.eraseIdx m.m_index }
    (if m.m_index ≠ 0 then sub64 m.m_index 1 else 0)

/-- Two runs of the merge side by side: `A` are the entries of a first run
at some point of the stream, `B` those of a second run at the same point, and
`E` is a fixed list. The runs agree on everything but the usage statistics,
and each statistic in `B` is the one in `A` or the one in `E`. -/
structure MergeRel (A B E : List NroEntry) : Prop where
  strip : B.map strip_hbini = A.map strip_hbini
  timestamp : ∀ (i : Nat) (a b : NroEntry), A[i]? = some a → B[i]? = some b →
    b.hbini.timestamp = a.hbini.timestamp ∨
      ∃ e, E[i]? = some e ∧ b.hbini.timestamp = e.hbini.timestamp
  launch_count : ∀ (i : Nat) (a b : NroEntry), A[i]? = some a → B[i]? = some b →
    b.hbini.launch_count = a.hbini.launch_count ∨
      ∃ e, E[i]? = some e ∧ b.hbini.launch_count = e.hbini.launch_count

/-! ## Runs of cursor steps -/

/-- The operations that move the cursor or the scroll offset. -/
inductive Step where
  | RIGHT
  | LEFT
  | DOWN
  | UP
  | SetIndex (index : Nat)
  | Delete
deriving DecidableEq, Repr

/-- One step; `Delete` is the delete callback with the answer "Delete" and a
successful `DeleteFile`. -/
def step (m : Menu) : Step → Menu
  | Step.RIGHT => Right m
  | Step.LEFT => Left m
  | Step.DOWN => Down m
  | Step.UP => Up m
  | Step.SetIndex index => SetIndex m index
  | Step.Delete => Delete_callback m (some 1) 0

/-- A run of steps, first step first. -/
def run : List Step → Menu → Menu
  | [], m => m
  | a :: as, m => run as (step m a)

/-- The same steps `cycle`, `k` times over. -/
def repeat_steps : Nat → List Step → List Step
  | 0, _ => []
  | k + 1, cycle => cycle ++ repeat_steps k cycle

/-- The cursor is among the nine positions from the scroll offset on. -/
@[reducible] def in_viewport (m : Menu) : Prop :=
  m.m_start ≤ m.m_index ∧ m.m_index < m.m_start + 9

/-! ## Fixtures -/

/-- An entry with the given name and nothing else set. -/
def mkEntry (path : String) (name : List Nat) : NroEntry :=
  { path := path, name := name, size := 0,
    timestamp := { created := 0, modified := 0, accessed := 0, is_valid := false },
    hbini := { timestamp := 0, launch_count := 0 },
    icon := [], icon_size := 0, icon_offset := 0, image := 0 }

/-- An entry with a name and a usage timestamp. -/
def mkEntryTs (path : String) (name : List Nat) (ts : Nat) : NroEntry :=
  { mkEntry path name with hbini := { timestamp := ts, launch_count := 0 } }

/-- Entry named "A", last launched at 100. -/
def entryA : NroEntry := mkEntryTs "/switch/A.nro" [65] 100

/-- Entry named "B", last launched at 200. -/
def entryB : NroEntry := mkEntryTs "/switch/B.nro" [66] 200

/-- Entry named "C", last launched at 50. -/
def entryC : NroEntry := mkEntryTs "/switch/C.nro" [67] 50

/-- Entry named "a", never launched. -/
def entryLower : NroEntry := mkEntry "/switch/lower/a.nro" [97]

/-- Entry named "Banana", never launched. -/
def entryBanana : NroEntry := mkEntry "/switch/Banana.nro" [66, 97, 110, 97, 110, 97]

/-- Entry named "Apple", never launched. -/
def entryApple : NroEntry := mkEntry "/switch/Apple.nro" [65, 112, 112, 108, 101]

/-- Entry named "A", never launched, at another path than `entryA`. -/
def entryUpper : NroEntry := mkEntry "/switch/upper/A.nro" [65]

/-- The menu over the given entries with the given sort settings, cursor and
scroll offset at zero. -/
def mkSortMenu (entries : List NroEntry) (sort : SortType) (order : OrderType) : Menu :=
  { m_entries := entries, m_index := 0, m_start := 0, m_sort := sort, m_order := order }

/-- The menu over [A, B, C] with the cursor on the last entry. -/
def menuABC : Menu :=
  { m_entries := [entryA, entryB, entryC], m_index := 2, m_start := 0,
    m_sort := SortType_Updated, m_order := OrderType_Decending }

/-- Entry with an icon range in its file, no icon bytes and no image yet. -/
def entryIcon : NroEntry :=
  { mkEntry "/switch/icon.nro" [105] with icon_size := 16, icon_offset := 64 }

/-- The menu over `entryIcon` alone. -/
def menuIcon : Menu := mkSortMenu [entryIcon] SortType_Updated OrderType_Decending

/-- A frame at scroll offset 0 during which `nro_get_icon` returns no bytes. -/
def frameFail : Frame :=
  { m_start := 0, collab := { nro_get_icon := fun _ _ _ => [], nvgCreateImageMem := fun _ => 1 } }

/-- A frame at scroll offset 0 during which `nro_get_icon` returns two bytes. -/
def frameOk : Frame :=
  { m_start := 0,
    collab := { nro_get_icon := fun _ _ _ => [255, 216], nvgCreateImageMem := fun _ => 1 } }

/-- A fresh `IniUser` over the entry A alone. -/
def userA : IniUser := { entires := [entryA], ini := none, last_section := "" }

/-- A menu over `n` placeholder entries. -/
def mkMenu (n index start : Nat) : Menu :=
  { m_entries := List.replicate n (mkEntry "" []), m_index := index, m_start := start,
    m_sort := SortType_Updated, m_order := OrderType_Decending }

/-- The menu right after a scan that found `n` placeholder entries and an
empty play log. -/
def scannedMenu (n : Nat) : Menu :=
  ScanHomebrew (mkMenu 0 0 0) (List.replicate n (mkEntry "" [])) []

/-! ## Machine arithmetic lemmas -/

theorem sub64_of_le {a b : Nat} (h : b ≤ a) (ha : a < U64) : sub64 a b = a - b := by
  unfold U64 at ha
  unfold sub64
  split <;> omega

theorem sub64_of_lt {a b : Nat} (h : a < b) (hb : b < U64) :
    sub64 a b = a + U64 - b := by
  unfold U64 at *
  unfold sub64
  split <;> omega

theorem add64_of_lt {a b : Nat} (h : a + b < U64) : add64 a b = a + b := by
  unfold U64 at h
  unfold add64
  omega

/-! ## Cursor moves -/

theorem SetIndex_m_index (m : Menu) (index : Nat) : (SetIndex m index).m_index = index := by
  unfold SetIndex
  dsimp only
  split <;> rfl

theorem SetIndex_m_entries (m : Menu) (index : Nat) :
    (SetIndex m index).m_entries = m.m_entries := by
  unfold SetIndex
  dsimp only
  split <;> rfl

theorem Right_m_index (m : Menu) (hlen : m.m_entries.length < U64)
    (hi : m.m_index < m.m_entries.length) :
    (Right m).m_index =
      if m.m_index ≠ m.m_entries.length - 1 ∧ (m.m_index + 1) % 3 ≠ 0 then m.m_index + 1
      else m.m_index := by
  have h1 : sub64 m.m_entries.length 1 = m.m_entries.length - 1 :=
    sub64_of_le (by omega) hlen
  have h2 : add64 m.m_index 1 = m.m_index + 1 := add64_of_lt (by omega)
  unfold Right
  rw [h1, h2]
  by_cases hc : m.m_index < m.m_entries.length - 1 ∧ (m.m_index + 1) % 3 ≠ 0
  · rw [if_pos hc, SetIndex_m_index, if_pos ⟨by omega, hc.2⟩]
  · rw [if_neg hc, if_neg (by omega)]

theorem Left_m_index (m : Menu) (hi : m.m_index < U64) :
    (Left m).m_index =
      if m.m_index ≠ 0 ∧ m.m_index % 3 ≠ 0 then m.m_index - 1 else m.m_index := by
  unfold Left
  by_cases hc : m.m_index ≠ 0 ∧ m.m_index % 3 ≠ 0
  · rw [if_pos hc, if_pos hc, SetIndex_m_index, sub64_of_le (by omega) hi]
  · rw [if_neg hc, if_neg hc]

/-- C3: for a non-empty collection and an in-range index, Right gives `i + 1`
exactly when `i` is not the last index and `(i + 1) % 3 ≠ 0` and otherwise
leaves `i`; Left gives `i - 1` exactly when `i ≠ 0` and `i % 3 ≠ 0` and
otherwise leaves `i`; both keep the row `i / 3`. -/
theorem horizontal_moves_stay_in_row (m : Menu) (_hne : m.m_entries ≠ [])
    (hlen : m.m_entries.length < U64) (hi : m.m_index < m.m_entries.length) :
    ((Right m).m_index =
        if m.m_index ≠ m.m_entries.length - 1 ∧ (m.m_index + 1) % 3 ≠ 0 then m.m_index + 1
        else m.m_index) ∧
    ((Left m).m_index =
        if m.m_index ≠ 0 ∧ m.m_index % 3 ≠ 0 then m.m_index - 1 else m.m_index) ∧
    (Right m).m_index / 3 = m.m_index / 3 ∧
    (Left m).m_index / 3 = m.m_index / 3 := by
  have hr := Right_m_index m hlen hi
  have hl := Left_m_index m (by omega)
  refine ⟨hr, hl, ?_, ?_⟩
  · rw [hr]
    split <;> omega
  · rw [hl]
    split <;> omega

/-- C3 at index 2 of a 7-entry collection: Right stays at 2 (last column of
row 0), Left goes to 1, the row stays 0. -/
theorem horizontal_moves_stay_in_row_witness :
    (mkMenu 7 2 0).m_entries ≠ [] ∧
    (mkMenu 7 2 0).m_index < (mkMenu 7 2 0).m_entries.length ∧
    (Right (mkMenu 7 2 0)).m_index = 2 ∧ (Left (mkMenu 7 2 0)).m_index = 1 ∧
    (Right (mkMenu 7 2 0)).m_index / 3 = 2 / 3 ∧ (Left (mkMenu 7 2 0)).m_index / 3 = 2 / 3 :=
  have h := horizontal_moves_stay_in_row (mkMenu 7 2 0) (by decide) (by decide) (by decide)
  ⟨by decide, by decide, h.1.trans (by decide), h.2.1.trans (by decide), h.2.2.1, h.2.2.2⟩

theorem Up_m_index (m : Menu) (hi : m.m_index < U64) :
    (Up m).m_index = if m.m_index ≥ 3 then m.m_index - 3 else m.m_index := by
  unfold Up
  by_cases hc : m.m_index ≥ 3
  · rw [if_pos hc, if_pos hc]
    have hs : sub64 m.m_index 3 = m.m_index - 3 := sub64_of_le hc hi
    dsimp only
    split
    · dsimp only
      rw [SetIndex_m_index, hs]
    · rw [SetIndex_m_index, hs]
  · rw [if_neg hc, if_neg hc]

/-- Index after Down: `min (i + 3) (len - 1)`, except for two entries with the
cursor on the first, where `m_entries.size() - 3` wraps around and the index
becomes 3. -/
theorem Down_m_index (m : Menu) (hlen : m.m_entries.length < U64)
    (hi : m.m_index < m.m_entries.length) :
    (Down m).m_index =
      if m.m_entries.length = 2 ∧ m.m_index = 0 then 3
      else min (m.m_index + 3) (m.m_entries.length - 1) := by
  have h1 : sub64 m.m_entries.length 1 = m.m_entries.length - 1 :=
    sub64_of_le (by omega) hlen
  have hstep : ∀ m1 : Menu,
      (if sub64 m1.m_index m1.m_start ≥ 9 then { m1 with m_start := add64 m1.m_start 3 }
        else m1).m_index = m1.m_index := by
    intro m1
    split <;> rfl
  unfold Down
  rw [h1]
  by_cases hc : m.m_index < m.m_entries.length - 1
  · rw [if_pos hc]
    dsimp only
    rw [hstep]
    by_cases h3 : 3 ≤ m.m_entries.length
    · have h2 : sub64 m.m_entries.length 3 = m.m_entries.length - 3 := sub64_of_le h3 hlen
      rw [h2]
      by_cases hd : m.m_index < m.m_entries.length - 3
      · have h4 : add64 m.m_index 3 = m.m_index + 3 := add64_of_lt (by omega)
        rw [if_pos hd, SetIndex_m_index, h4, if_neg (by omega)]
        omega
      · rw [if_neg hd, SetIndex_m_index, if_neg (by omega)]
        omega
    · have hl2 : m.m_entries.length = 2 := by omega
      have hi0 : m.m_index = 0 := by omega
      have hw : (0 : Nat) < sub64 2 3 := by decide
      have ha : add64 0 3 = 3 := by decide
      rw [hl2, hi0, if_pos hw, SetIndex_m_index, ha, if_pos ⟨rfl, rfl⟩]
  · rw [if_neg hc, if_neg (by omega)]
    omega

/-- Right, Left and Up keep an in-range cursor in range, and so does Down
unless the collection has exactly two entries. -/
theorem navigation_in_range (m : Menu) (hlen : m.m_entries.length < U64)
    (hi : m.m_index < m.m_entries.length) :
    (Right m).m_index < m.m_entries.length ∧ (Left m).m_index < m.m_entries.length ∧
    (Up m).m_index < m.m_entries.length ∧
    (m.m_entries.length ≠ 2 → (Down m).m_index < m.m_entries.length) := by
  refine ⟨?_, ?_, ?_, ?_⟩
  · rw [Right_m_index m hlen hi]
    split <;> omega
  · rw [Left_m_index m (by omega)]
    split <;> omega
  · rw [Up_m_index m (by omega)]
    split <;> omega
  · intro h2
    rw [Down_m_index m hlen hi, if_neg (by omega)]
    omega

/-- C1, evaluated on two entries with the cursor on the first: the index is
in range before Down and is 3, past the end of the two entries, after it. -/
theorem Down_two_entries_out_of_range :
    (mkMenu 2 0 0).m_index < (mkMenu 2 0 0).m_entries.length ∧
    (Down (mkMenu 2 0 0)).m_index = 3 ∧
    (Down (mkMenu 2 0 0)).m_entries.length = 2 ∧
    ¬ (Down (mkMenu 2 0 0)).m_index < (Down (mkMenu 2 0 0)).m_entries.length := by
  decide

/-- C2, evaluated on two entries with the cursor on the first: Down stores 3
where the clamp `min (i + 3) (len - 1)` is 1. -/
theorem Down_two_entries_not_clamped :
    (Down (mkMenu 2 0 0)).m_index = 3 ∧
    min ((mkMenu 2 0 0).m_index + 3) ((mkMenu 2 0 0).m_entries.length - 1) = 1 ∧
    (Down (mkMenu 7 4 0)).m_index = 6 := by
  decide

/-! ## The name comparison -/

theorem strcasecmp_swap : ∀ a b : List Nat, strcasecmp b a = - strcasecmp a b
  | [], [] => by simp [strcasecmp]
  | [], c2 :: _ => by simp [strcasecmp]
  | c1 :: _, [] => by simp [strcasecmp]
  | c1 :: s1, c2 :: s2 => by
    have ih := strcasecmp_swap s1 s2
    simp only [strcasecmp]
    split_ifs <;> omega

theorem strcasecmp_trans : ∀ a b c : List Nat,
    strcasecmp a b ≤ 0 → strcasecmp b c ≤ 0 →
      strcasecmp a c ≤ 0 ∧ (strcasecmp a b < 0 ∨ strcasecmp b c < 0 → strcasecmp a c < 0)
  | [], [], [] => by simp [strcasecmp]
  | [], [], z :: _ => by
    simp only [strcasecmp]
    omega
  | [], y :: _, [] => by
    simp only [strcasecmp]
    omega
  | [], y :: bs, z :: cs => by
    simp only [strcasecmp]
    split_ifs <;> omega
  | x :: _, [], [] => by
    simp only [strcasecmp]
    omega
  | x :: s1, [], z :: cs => by
    simp only [strcasecmp]
    split_ifs <;> omega
  | x :: s1, y :: bs, [] => by
    simp only [strcasecmp]
    split_ifs <;> omega
  | x :: s1, y :: bs, z :: cs => by
    have ih := strcasecmp_trans s1 bs cs
    simp only [strcasecmp]
    split_ifs <;> omega

theorem strcasecmp_lt_trans {a b c : List Nat} (h1 : strcasecmp a b < 0)
    (h2 : strcasecmp b c < 0) : strcasecmp a c < 0 :=
  (strcasecmp_trans a b c (le_of_lt h1) (le_of_lt h2)).2 (Or.inl h1)

/-! ## The sorter -/

theorem sorter_asymm (sort : SortType) (order : OrderType) (a b : NroEntry) :
    ¬ (sorter sort order a b = true ∧ sorter sort order b a = true) := by
  have hs := strcasecmp_swap a.name b.name
  cases sort <;> cases order <;>
    simp only [sorter, primary_key, reduceCtorEq, if_true, if_false] <;>
    (try split_ifs) <;> simp only [decide_eq_true_eq] <;> omega

theorem sorter_trans (sort : SortType) (order : OrderType) (a b c : NroEntry)
    (hab : sorter sort order a b = true) (hbc : sorter sort order b c = true) :
    sorter sort order a c = true := by
  have h1 := strcasecmp_trans a.name b.name c.name
  have h2 := strcasecmp_trans c.name b.name a.name
  have s1 := strcasecmp_swap a.name b.name
  have s2 := strcasecmp_swap b.name c.name
  have s3 := strcasecmp_swap a.name c.name
  revert hab hbc
  cases sort <;> cases order <;>
    simp only [sorter, primary_key, reduceCtorEq, if_true, if_false] <;>
    (try split_ifs) <;> simp only [decide_eq_true_eq] <;> intros <;> omega

theorem sorter_comparable (sort : SortType) (order : OrderType) (a b : NroEntry) :
    (sorter sort order a b = true ∨ sorter sort order b a = true) ↔
      ¬ (primary_key sort a = primary_key sort b ∧ strcasecmp a.name b.name = 0) := by
  have hs := strcasecmp_swap a.name b.name
  cases sort <;> cases order <;>
    simp only [sorter, primary_key, reduceCtorEq, if_true, if_false] <;>
    (try split_ifs) <;> simp only [decide_eq_true_eq, true_and] <;> omega

/-- C4, as amended: for every sort key and direction the sorter is a strict
weak order. It never holds both ways, it is transitive, and two entries are
comparable exactly when they differ in the primary key or have names that
`strcasecmp` tells apart. -/
theorem sorter_strict_weak_order (sort : SortType) (order : OrderType) (a b c : NroEntry) :
    ¬ (sorter sort order a b = true ∧ sorter sort order b a = true) ∧
    (sorter sort order a b = true → sorter sort order b c = true →
      sorter sort order a c = true) ∧
    ((sorter sort order a b = true ∨ sorter sort order b a = true) ↔
      ¬ (primary_key sort a = primary_key sort b ∧ strcasecmp a.name b.name = 0)) :=
  ⟨sorter_asymm sort order a b, sorter_trans sort order a b c,
    sorter_comparable sort order a b⟩

/-- C4 at B (200), A (100), C (50) sorted by Updated, descending: B goes
before A, A before C, and so B before C. -/
theorem sorter_strict_weak_order_witness :
    sorter SortType_Updated OrderType_Decending entryB entryA = true ∧
    sorter SortType_Updated OrderType_Decending entryA entryC = true ∧
    sorter SortType_Updated OrderType_Decending entryB entryC = true :=
  ⟨by decide, by decide,
    (sorter_strict_weak_order SortType_Updated OrderType_Decending entryB entryA entryC).2.1
      (by decide) (by decide)⟩

/-- C4 as stated fails: the entries named "a" and "A" are different entries,
yet under every sort key and direction neither goes before the other. -/
theorem sorter_not_total :
    entryLower ≠ entryUpper ∧
    (sorter SortType_Updated OrderType_Decending entryLower entryUpper = false ∧
      sorter SortType_Updated OrderType_Decending entryUpper entryLower = false) ∧
    (sorter SortType_Updated OrderType_Ascending entryLower entryUpper = false ∧
      sorter SortType_Updated OrderType_Ascending entryUpper entryLower = false) ∧
    (sorter SortType_Size OrderType_Decending entryLower entryUpper = false ∧
      sorter SortType_Size OrderType_Decending entryUpper entryLower = false) ∧
    (sorter SortType_Size OrderType_Ascending entryLower entryUpper = false ∧
      sorter SortType_Size OrderType_Ascending entryUpper entryLower = false) ∧
    (sorter SortType_Alphabetical OrderType_Decending entryLower entryUpper = false ∧
      sorter SortType_Alphabetical OrderType_Decending entryUpper entryLower = false) ∧
    (sorter SortType_Alphabetical OrderType_Ascending entryLower entryUpper = false ∧
      sorter SortType_Alphabetical OrderType_Ascending entryUpper entryLower = false) := by
  decide

/-- C6: for the keys Updated and Size and either direction, entries with the
same primary key are ordered by `strcasecmp` of their names being negative,
and the answer is the same for both directions. -/
theorem tie_break_ignores_direction (order : OrderType) (a b : NroEntry) :
    (effective_timestamp a = effective_timestamp b →
      ((sorter SortType_Updated order a b = true ↔ strcasecmp a.name b.name < 0) ∧
        sorter SortType_Updated OrderType_Decending a b =
          sorter SortType_Updated OrderType_Ascending a b)) ∧
    (a.size = b.size →
      ((sorter SortType_Size order a b = true ↔ strcasecmp a.name b.name < 0) ∧
        sorter SortType_Size OrderType_Decending a b =
          sorter SortType_Size OrderType_Ascending a b)) := by
  constructor
  · intro h
    simp only [sorter, if_pos h, decide_eq_true_eq, and_self]
  · intro h
    simp only [sorter, if_pos h, decide_eq_true_eq, and_self]

/-- C6 at "Apple" and "Banana", both never launched and of size 0: "Apple"
goes first under both directions and both keys. -/
theorem tie_break_ignores_direction_witness :
    effective_timestamp entryApple = effective_timestamp entryBanana ∧
    entryApple.size = entryBanana.size ∧
    strcasecmp entryApple.name entryBanana.name < 0 ∧
    sorter SortType_Updated OrderType_Ascending entryApple entryBanana = true ∧
    sorter SortType_Size OrderType_Ascending entryApple entryBanana = true :=
  have h := tie_break_ignores_direction OrderType_Ascending entryApple entryBanana
  ⟨by decide, by decide, by decide,
    ((h.1 (by decide)).1).2 (by decide), ((h.2 (by decide)).1).2 (by decide)⟩

/-! ## Sorting -/

theorem sort_insert_perm {α : Type} (comp : α → α → Bool) (x : α) :
    ∀ l : List α, (sort_insert comp x l).Perm (x :: l)
  | [] => List.Perm.refl _
  | y :: ys => by
    unfold sort_insert
    split
    · exact List.Perm.refl _
    · exact ((sort_insert_perm comp x ys).cons y).trans (List.Perm.swap x y ys)

theorem std_sort_perm {α : Type} (comp : α → α → Bool) :
    ∀ l : List α, (std_sort comp l).Perm l
  | [] => List.Perm.refl _
  | x :: xs => by
    unfold std_sort
    exact (sort_insert_perm comp x _).trans ((std_sort_perm comp xs).cons x)

theorem sort_insert_sorted {α : Type} (comp : α → α → Bool)
    (hasymm : ∀ a b, ¬ (comp a b = true ∧ comp b a = true))
    (htrans : ∀ a b c, comp a b = true → comp b c = true → comp a c = true) (x : α) :
    ∀ l : List α, l.Pairwise (fun a b => comp b a = false) →
      (sort_insert comp x l).Pairwise (fun a b => comp b a = false)
  | [], _ => by
    unfold sort_insert
    exact List.pairwise_singleton _ _
  | y :: ys, h => by
    have hy := List.pairwise_cons.1 h
    unfold sort_insert
    split
    · rename_i hxy
      refine List.pairwise_cons.2 ⟨?_, h⟩
      intro z hz
      rcases List.mem_cons.1 hz with hzy | hzys
      · subst hzy
        cases hc : comp z x
        · rfl
        · exact absurd ⟨hxy, hc⟩ (hasymm x z)
      · cases hc : comp z x
        · rfl
        · have hzy : comp z y = true := htrans z x y hc hxy
          rw [hy.1 z hzys] at hzy
          cases hzy
    · rename_i hxy
      refine List.pairwise_cons.2 ⟨?_, sort_insert_sorted comp hasymm htrans x ys hy.2⟩
      intro z hz
      rcases List.mem_cons.1 ((sort_insert_perm comp x ys).mem_iff.1 hz) with hzx | hzys
      · subst hzx
        cases hc : comp z y
        · rfl
        · exact absurd hc hxy
      · exact hy.1 z hzys

theorem std_sort_sorted {α : Type} (comp : α → α → Bool)
    (hasymm : ∀ a b, ¬ (comp a b = true ∧ comp b a = true))
    (htrans : ∀ a b c, comp a b = true → comp b c = true → comp a c = true) :
    ∀ l : List α, (std_sort comp l).Pairwise (fun a b => comp b a = false)
  | [] => List.Pairwise.nil
  | x :: xs => by
    unfold std_sort
    exact sort_insert_sorted comp hasymm htrans x _ (std_sort_sorted comp hasymm htrans xs)

theorem Sort_sorted (m : Menu) :
    (Menu.Sort m).m_entries.Pairwise (fun a b => sorter m.m_sort m.m_order b a = false) :=
  std_sort_sorted (sorter m.m_sort m.m_order) (sorter_asymm m.m_sort m.m_order)
    (sorter_trans m.m_sort m.m_order) m.m_entries

theorem Sort_perm (m : Menu) : (Menu.Sort m).m_entries.Perm m.m_entries :=
  std_sort_perm (sorter m.m_sort m.m_order) m.m_entries

theorem effective_timestamp_eq_max (e : NroEntry) :
    effective_timestamp e =
      if e.timestamp.is_valid = true then max e.hbini.timestamp e.timestamp.modified
      else e.hbini.timestamp := by
  unfold effective_timestamp
  dsimp only
  by_cases hv : e.timestamp.is_valid = true
  · rw [if_pos hv]
    by_cases hlt : e.hbini.timestamp < e.timestamp.modified
    · rw [if_pos ⟨hv, hlt⟩, Nat.max_eq_right (Nat.le_of_lt hlt)]
    · rw [if_neg (fun h => hlt h.2), Nat.max_eq_left (Nat.le_of_not_lt hlt)]
  · rw [if_neg hv, if_neg (fun h => hv h.1)]

/-- C5: the timestamp compared for an entry is the usage timestamp, or the
larger of it and the file's modified time when the file timestamp is valid;
sorting by Updated keeps the entries and leaves these timestamps
non-increasing along the list when descending and non-decreasing when
ascending; on [A at 100, B at 200] that is [B, A] and [A, B]. -/
theorem Sort_Updated_by_effective_timestamp (entries : List NroEntry) (index start : Nat) :
    (∀ e : NroEntry, effective_timestamp e =
      if e.timestamp.is_valid = true then max e.hbini.timestamp e.timestamp.modified
      else e.hbini.timestamp) ∧
    ((Menu.Sort ⟨entries, index, start, SortType_Updated, OrderType_Decending⟩).m_entries.Perm
        entries ∧
      List.Chain' (fun a b => effective_timestamp a ≥ effective_timestamp b)
        (Menu.Sort ⟨entries, index, start, SortType_Updated, OrderType_Decending⟩).m_entries) ∧
    ((Menu.Sort ⟨entries, index, start, SortType_Updated, OrderType_Ascending⟩).m_entries.Perm
        entries ∧
      List.Chain' (fun a b => effective_timestamp a ≤ effective_timestamp b)
        (Menu.Sort ⟨entries, index, start, SortType_Updated, OrderType_Ascending⟩).m_entries) ∧
    (Menu.Sort (mkSortMenu [entryA, entryB] SortType_Updated OrderType_Decending)).m_entries =
      [entryB, entryA] ∧
    (Menu.Sort (mkSortMenu [entryA, entryB] SortType_Updated OrderType_Ascending)).m_entries =
      [entryA, entryB] := by
  refine ⟨effective_timestamp_eq_max, ⟨Sort_perm _, ?_⟩, ⟨Sort_perm _, ?_⟩, by decide, by decide⟩
  · refine List.Pairwise.chain' ((Sort_sorted _).imp ?_)
    intro a b h
    revert h
    simp only [sorter, reduceCtorEq, if_true, if_false]
    split_ifs <;> simp only [decide_eq_false_iff_not] <;> omega
  · refine List.Pairwise.chain' ((Sort_sorted _).imp ?_)
    intro a b h
    revert h
    simp only [sorter, reduceCtorEq, if_true, if_false]
    split_ifs <;> simp only [decide_eq_false_iff_not] <;> omega

/-- C7: sorting by Alphabetical keeps the entries; with direction Descending
no entry's name compares above the next one's under `strcasecmp`, with
direction Ascending none compares below; ["Banana", "Apple"] becomes
["Apple", "Banana"] under Descending and stays under Ascending. -/
theorem Sort_Alphabetical_inverted (entries : List NroEntry) (index start : Nat) :
    ((Menu.Sort ⟨entries, index, start, SortType_Alphabetical, OrderType_Decending⟩).m_entries.Perm
        entries ∧
      List.Chain' (fun a b => strcasecmp a.name b.name ≤ 0)
        (Menu.Sort
          ⟨entries, index, start, SortType_Alphabetical, OrderType_Decending⟩).m_entries) ∧
    ((Menu.Sort ⟨entries, index, start, SortType_Alphabetical, OrderType_Ascending⟩).m_entries.Perm
        entries ∧
      List.Chain' (fun a b => strcasecmp a.name b.name ≥ 0)
        (Menu.Sort
          ⟨entries, index, start, SortType_Alphabetical, OrderType_Ascending⟩).m_entries) ∧
    ((Menu.Sort (mkSortMenu [entryBanana, entryApple] SortType_Alphabetical
        OrderType_Decending)).m_entries.map (fun e => e.name) =
      [entryApple.name, entryBanana.name]) ∧
    ((Menu.Sort (mkSortMenu [entryBanana, entryApple] SortType_Alphabetical
        OrderType_Ascending)).m_entries.map (fun e => e.name) =
      [entryBanana.name, entryApple.name]) := by
  refine ⟨⟨Sort_perm _, ?_⟩, ⟨Sort_perm _, ?_⟩, by decide, by decide⟩
  · refine List.Pairwise.chain' ((Sort_sorted _).imp ?_)
    intro a b h
    have hs := strcasecmp_swap a.name b.name
    revert h
    simp only [sorter, reduceCtorEq, if_true, if_false, decide_eq_false_iff_not]
    omega
  · refine List.Pairwise.chain' ((Sort_sorted _).imp ?_)
    intro a b h
    have hs := strcasecmp_swap a.name b.name
    revert h
    simp only [sorter, reduceCtorEq, if_true, if_false, decide_eq_false_iff_not]
    omega

/-! ## Delete -/

/-- C8: after a confirmed delete that succeeds on an in-range cursor `i`, the
entries are the old ones without position `i`, in the same order, and the
cursor is `max (i - 1) 0`; from the last entry that is `size - 2`, or 0 when
it was the only entry. -/
theorem Delete_success (m : Menu) (op : Int) (hop : op ≠ 0)
    (hlen : m.m_entries.length < U64) (hi : m.m_index < m.m_entries.length) :
    (Delete_callback m (some op) 0).m_entries =
      m.m_entries.take m.m_index ++ m.m_entries.drop (m.m_index + 1) ∧
    (Delete_callback m (some op) 0).m_entries.length = m.m_entries.length - 1 ∧
    ((Delete_callback m (some op) 0).m_index : Int) = max ((m.m_index : Int) - 1) 0 ∧
    (m.m_index = m.m_entries.length - 1 →
      (Delete_callback m (some op) 0).m_index =
        if m.m_entries.length = 1 then 0 else m.m_entries.length - 2) := by
  have hidx : (Delete_callback m (some op) 0).m_index = m.m_index - 1 := by
    unfold Delete_callback
    dsimp only
    rw [if_pos hop, if_pos rfl, SetIndex_m_index]
    by_cases h0 : m.m_index = 0
    · rw [if_neg (by omega), h0]
    · rw [if_pos h0, sub64_of_le (by omega) (by omega)]
  have hent : (Delete_callback m (some op) 0).m_entries = m.m_entries.eraseIdx m.m_index := by
    unfold Delete_callback
    dsimp only
    rw [if_pos hop, if_pos rfl, SetIndex_m_entries]
  refine ⟨?_, ?_, ?_, ?_⟩
  · rw [hent, List.eraseIdx_eq_take_drop_succ]
  · rw [hent, List.length_eraseIdx, if_pos hi]
  · rw [hidx]
    omega
  · intro hlast
    rw [hidx]
    split <;> omega

/-- C8 on [A, B, C] with the cursor on C: the entries become [A, B] and the
cursor moves to 1. -/
theorem Delete_success_witness :
    (1 : Int) ≠ 0 ∧ menuABC.m_index < menuABC.m_entries.length ∧
    (Delete_callback menuABC (some 1) 0).m_entries = [entryA, entryB] ∧
    (Delete_callback menuABC (some 1) 0).m_index = 1 :=
  have h := Delete_success menuABC 1 (by decide) (by decide) (by decide)
  ⟨by decide, by decide, h.1.trans (by decide), (h.2.2.2 (by decide)).trans (by decide)⟩

/-! ## Re-sort from the pickers -/

/-- The Sort and Order picker callbacks store the picked value and sort the
entries by it; they leave the cursor and the scroll offset as they were. -/
theorem picker_callbacks_keep_cursor (m : Menu) (sort : SortType) (order : OrderType) :
    (Sort_callback m sort).m_index = m.m_index ∧
    (Sort_callback m sort).m_start = m.m_start ∧
    (Sort_callback m sort).m_sort = sort ∧
    (Sort_callback m sort).m_entries.Perm m.m_entries ∧
    (Sort_callback m sort).m_entries.Pairwise (fun a b => sorter sort m.m_order b a = false) ∧
    (Order_callback m order).m_index = m.m_index ∧
    (Order_callback m order).m_start = m.m_start ∧
    (Order_callback m order).m_order = order ∧
    (Order_callback m order).m_entries.Perm m.m_entries ∧
    (Order_callback m order).m_entries.Pairwise
      (fun a b => sorter m.m_sort order b a = false) :=
  ⟨rfl, rfl, rfl, Sort_perm { m with m_sort := sort }, Sort_sorted { m with m_sort := sort },
    rfl, rfl, rfl, Sort_perm { m with m_order := order },
    Sort_sorted { m with m_order := order }⟩

/-- C9, evaluated where it fails: a scan of A, B, C sorted by Updated,
descending, gives [B, A, C] with the cursor at 0; Down puts the cursor on C
at position 2. Picking the direction Ascending sorts the entries to
[C, A, B] and leaves the cursor at 2, now on B; picking the key Size leaves
it at 2 as well. The scan, which sorts too, ends with the cursor at 0. -/
theorem picker_callbacks_leave_cursor :
    (run [Step.DOWN] (ScanHomebrew (mkSortMenu [] SortType_Updated OrderType_Decending)
      [entryA, entryB, entryC] [])).m_entries = [entryB, entryA, entryC] ∧
    (run [Step.DOWN] (ScanHomebrew (mkSortMenu [] SortType_Updated OrderType_Decending)
      [entryA, entryB, entryC] [])).m_index = 2 ∧
    (Order_callback (run [Step.DOWN] (ScanHomebrew
      (mkSortMenu [] SortType_Updated OrderType_Decending) [entryA, entryB, entryC] []))
      OrderType_Ascending).m_entries = [entryC, entryA, entryB] ∧
    (Order_callback (run [Step.DOWN] (ScanHomebrew
      (mkSortMenu [] SortType_Updated OrderType_Decending) [entryA, entryB, entryC] []))
      OrderType_Ascending).m_index = 2 ∧
    (Sort_callback (run [Step.DOWN] (ScanHomebrew
      (mkSortMenu [] SortType_Updated OrderType_Decending) [entryA, entryB, entryC] []))
      SortType_Size).m_index = 2 ∧
    (ScanHomebrew (mkSortMenu [] SortType_Updated OrderType_Decending)
      [entryA, entryB, entryC] []).m_index = 0 := by
  decide

/-! ## The loops of Draw -/

theorem Draw_visit_append (c : Collab) :
    ∀ (l1 l2 : List Nat) (st : DrawState),
      Draw_visit c (l1 ++ l2) st = Draw_visit c l2 (Draw_visit c l1 st)
  | [], _, _ => rfl
  | p :: ps, l2, st => by
    simp only [List.cons_append, Draw_visit]
    exact Draw_visit_append c ps l2 _

/-- The inner loop visits the next `min k (min (9 - i) (nro_total - pos))`
positions. -/
theorem Draw_cols_eq (c : Collab) (n : Nat) :
    ∀ (k i pos : Nat) (st : DrawState),
      Draw_cols c n k i pos st =
        (i + min k (min (9 - i) (n - pos)), pos + min k (min (9 - i) (n - pos)),
          Draw_visit c (List.range' pos (min k (min (9 - i) (n - pos)))) st)
  | 0, i, pos, st => by
    simp [Draw_cols, Draw_visit]
  | k + 1, i, pos, st => by
    unfold Draw_cols
    by_cases h : pos < n ∧ i < 9
    · have ht : min (k + 1) (min (9 - i) (n - pos)) =
          min k (min (9 - (i + 1)) (n - (pos + 1))) + 1 := by omega
      rw [if_pos h, Draw_cols_eq c n k (i + 1) (pos + 1), ht, List.range'_succ]
      simp only [Draw_visit]
      refine Prod.ext ?_ (Prod.ext ?_ rfl)
      · simp only
        omega
      · simp only
        omega
    · have ht : min (k + 1) (min (9 - i) (n - pos)) = 0 := by omega
      rw [if_neg h, ht]
      simp [Draw_visit]

/-- With more rows allowed than are left to draw, the outer loop ends by its
own condition, having visited the next `min (9 - i) (nro_total - pos)`
positions. -/
theorem Draw_rows_eq (c : Collab) (n : Nat) :
    ∀ (fuel i pos : Nat) (st : DrawState), 9 - i < fuel →
      Draw_rows c n fuel i pos st =
        some (Draw_visit c (List.range' pos (min (9 - i) (n - pos))) st)
  | 0, _, _, _, h => absurd h (Nat.not_lt_zero _)
  | fuel + 1, i, pos, st, h => by
    unfold Draw_rows
    by_cases hc : pos < n ∧ i < 9
    · rw [if_pos hc]
      dsimp only
      rw [Draw_cols_eq c n 3 i pos st]
      dsimp only
      have hsum : min (9 - (i + min 3 (min (9 - i) (n - pos))))
            (n - (pos + min 3 (min (9 - i) (n - pos)))) +
          min 3 (min (9 - i) (n - pos)) = min (9 - i) (n - pos) := by
        omega
      rw [Draw_rows_eq c n fuel _ _ _ (by omega), ← Draw_visit_append, List.range'_append_1,
        hsum]
    · have ht : min (9 - i) (n - pos) = 0 := by omega
      rw [if_neg hc, ht]
      rfl

theorem Draw_eq (c : Collab) (m : Menu) :
    Draw c m =
      some ({ m with m_entries := (Draw_visit c
          (List.range' m.m_start (min 9 (m.m_entries.length - m.m_start)))
          { entries := m.m_entries, visited := [], calls := [] }).entries },
        Draw_visit c (List.range' m.m_start (min 9 (m.m_entries.length - m.m_start)))
          { entries := m.m_entries, visited := [], calls := [] }) := by
  unfold Draw
  rw [Draw_rows_eq c _ 10 0 m.m_start _ (by omega)]

/-! ## The lazy icon load -/

theorem Draw_lazy_load_pos (c : Collab) (pos : Nat) (e : NroEntry) (h : needs_icon e) :
    (Draw_lazy_load c pos e).2 =
        [{ pos := pos, result := c.nro_get_icon e.path e.icon_size e.icon_offset }] ∧
    (Draw_lazy_load c pos e).1.icon = c.nro_get_icon e.path e.icon_size e.icon_offset := by
  unfold Draw_lazy_load
  rw [if_pos h]
  dsimp only
  split <;> exact ⟨rfl, rfl⟩

theorem Draw_lazy_load_neg (c : Collab) (pos : Nat) (e : NroEntry) (h : ¬ needs_icon e) :
    Draw_lazy_load c pos e = (e, []) := by
  unfold Draw_lazy_load
  rw [if_neg h]

theorem Draw_lazy_load_empty (c : Collab) (pos : Nat) (e : NroEntry) (h : needs_icon e)
    (hd : c.nro_get_icon e.path e.icon_size e.icon_offset = []) :
    Draw_lazy_load c pos e = (e, [{ pos := pos, result := [] }]) := by
  unfold Draw_lazy_load
  rw [if_pos h]
  dsimp only
  rw [hd, if_neg (fun hne => hne rfl), ← h.2.1]

theorem Draw_lazy_load_needs (c : Collab) (pos : Nat) (e : NroEntry)
    (h : needs_icon (Draw_lazy_load c pos e).1) : needs_icon e := by
  by_cases hn : needs_icon e
  · exact hn
  · rw [Draw_lazy_load_neg c pos e hn] at h
    exact h

theorem set_of_getElem? {α : Type} (l : List α) (i : Nat) (a : α) (h : l[i]? = some a) :
    l.set i a = l := by
  apply List.ext_getElem?
  intro j
  by_cases hj : i = j
  · subst hj
    rw [List.getElem?_set_self (List.getElem?_eq_some.1 h).1, h]
  · rw [List.getElem?_set_ne hj]

theorem Draw_body_inv (c : Collab) (q : Nat) (E0 : List NroEntry) (prev : List IconCall)
    (st : DrawState) (h : DrawInv E0 st.entries (prev ++ st.calls)) :
    DrawInv E0 (Draw_body c q st).entries (prev ++ (Draw_body c q st).calls) := by
  unfold Draw_body
  cases hq : st.entries[q]? with
  | none => exact h
  | some e =>
    dsimp only
    by_cases hn : needs_icon e
    · obtain ⟨hcalls, hicon⟩ := Draw_lazy_load_pos c q e hn
      have hold : ∀ a ∈ prev ++ st.calls, a.pos = q → a.result = [] := by
        intro a ha hpos
        by_contra hres
        exact h.loaded a ha hres e (hpos ▸ hq) hn.2.1
      rw [hcalls, ← List.append_assoc]
      constructor
      · refine List.pairwise_append.2 ⟨h.pairwise, List.pairwise_singleton _ _, ?_⟩
        intro a ha b hb hpos
        rw [List.mem_singleton.1 hb] at hpos
        exact hold a ha hpos
      · intro a ha hres e2 he2
        rcases List.mem_append.1 ha with ha | ha
        · have hne : q ≠ a.pos := fun hpos => hres (hold a ha hpos.symm)
          rw [List.getElem?_set_ne hne] at he2
          exact h.loaded a ha hres e2 he2
        · rw [List.mem_singleton.1 ha] at hres he2
          dsimp only at hres he2
          rw [List.getElem?_set_self (List.getElem?_eq_some.1 hq).1] at he2
          rw [← Option.some.inj he2, hicon]
          exact hres
      · intro p e2 he2 hn2
        by_cases hp : q = p
        · subst hp
          exact h.origin q e hq hn
        · rw [List.getElem?_set_ne hp] at he2
          exact h.origin p e2 he2 hn2
      · intro a ha
        rcases List.mem_append.1 ha with ha | ha
        · exact h.called a ha
        · rw [List.mem_singleton.1 ha]
          exact h.origin q e hq hn
    · rw [Draw_lazy_load_neg c q e hn]
      dsimp only
      rw [set_of_getElem? _ _ _ hq, List.append_nil]
      exact h

theorem Draw_visit_inv (c : Collab) (E0 : List NroEntry) (prev : List IconCall) :
    ∀ (ps : List Nat) (st : DrawState), DrawInv E0 st.entries (prev ++ st.calls) →
      DrawInv E0 (Draw_visit c ps st).entries (prev ++ (Draw_visit c ps st).calls)
  | [], _, h => h
  | q :: ps, st, h => Draw_visit_inv c E0 prev ps _ (Draw_body_inv c q E0 prev st h)

theorem DrawFrames_inv (E0 : List NroEntry) :
    ∀ (frames : List Frame) (m : Menu) (prev : List IconCall),
      DrawInv E0 m.m_entries prev →
      ∃ m1 calls, DrawFrames frames m = some (m1, calls) ∧
        DrawInv E0 m1.m_entries (prev ++ calls)
  | [], m, prev, h => ⟨m, [], rfl, by rw [List.append_nil]; exact h⟩
  | f :: fs, m, prev, h => by
    have hstep := Draw_visit_inv f.collab E0 prev
      (List.range' f.m_start (min 9 (m.m_entries.length - f.m_start)))
      { entries := m.m_entries, visited := [], calls := [] }
      (by rw [List.append_nil]; exact h)
    obtain ⟨m2, calls, hrun, hinv⟩ := DrawFrames_inv E0 fs
      { m_entries := (Draw_visit f.collab
          (List.range' f.m_start (min 9 (m.m_entries.length - f.m_start)))
          { entries := m.m_entries, visited := [], calls := [] }).entries,
        m_index := m.m_index, m_start := f.m_start, m_sort := m.m_sort, m_order := m.m_order }
      _ hstep
    refine ⟨m2, _ ++ calls, ?_, by rw [← List.append_assoc]; exact hinv⟩
    unfold DrawFrames
    rw [Draw_eq]
    dsimp only
    rw [hrun]

theorem DrawInv_init (E0 : List NroEntry) : DrawInv E0 E0 [] :=
  ⟨List.Pairwise.nil, fun _ h => absurd h (List.not_mem_nil _),
    fun _ e h hn => ⟨e, h, hn⟩, fun _ h => absurd h (List.not_mem_nil _)⟩

theorem Draw_lazy_load_calls_pos (c : Collab) (q : Nat) (e : NroEntry) :
    ∀ d ∈ (Draw_lazy_load c q e).2, d.pos = q := by
  intro d hd
  by_cases hn : needs_icon e
  · rw [(Draw_lazy_load_pos c q e hn).1] at hd
    rw [List.mem_singleton.1 hd]
  · rw [Draw_lazy_load_neg c q e hn] at hd
    exact absurd hd (List.not_mem_nil _)

theorem Draw_body_retry (c : Collab) (q p : Nat) (e : NroEntry) (st : DrawState)
    (hp : st.entries[p]? = some e) (hn : needs_icon e)
    (hd : c.nro_get_icon e.path e.icon_size e.icon_offset = []) :
    (Draw_body c q st).entries[p]? = some e ∧
    List.countP (fun d => decide (d.pos = p)) (Draw_body c q st).calls =
      List.countP (fun d => decide (d.pos = p)) st.calls + (if q = p then 1 else 0) := by
  unfold Draw_body
  cases hq : st.entries[q]? with
  | none =>
    have hqp : ¬ q = p := by
      intro h
      rw [h, hp] at hq
      cases hq
    dsimp only
    rw [if_neg hqp]
    exact ⟨hp, rfl⟩
  | some e2 =>
    dsimp only
    by_cases hqp : q = p
    · subst hqp
      have he : e2 = e := Option.some.inj (hq.symm.trans hp)
      subst he
      rw [Draw_lazy_load_empty c q e2 hn hd, if_pos rfl, set_of_getElem? _ _ _ hq,
        List.countP_append]
      refine ⟨hp, ?_⟩
      simp only [List.countP_singleton, decide_True, if_true]
    · rw [List.getElem?_set_ne hqp, if_neg hqp, List.countP_append]
      refine ⟨hp, ?_⟩
      have hz : List.countP (fun d => decide (d.pos = p)) (Draw_lazy_load c q e2).2 = 0 := by
        rw [List.countP_eq_zero]
        intro d hdm
        rw [Draw_lazy_load_calls_pos c q e2 d hdm]
        simpa using hqp
      rw [hz]

theorem Draw_visit_retry (c : Collab) (p : Nat) (e : NroEntry) (hn : needs_icon e)
    (hd : c.nro_get_icon e.path e.icon_size e.icon_offset = []) :
    ∀ (ps : List Nat) (st : DrawState), st.entries[p]? = some e →
      (Draw_visit c ps st).entries[p]? = some e ∧
      List.countP (fun d => decide (d.pos = p)) (Draw_visit c ps st).calls =
        List.countP (fun d => decide (d.pos = p)) st.calls + ps.count p
  | [], _, hp => ⟨hp, rfl⟩
  | q :: ps, st, hp => by
    obtain ⟨h1, h2⟩ := Draw_body_retry c q p e st hp hn hd
    obtain ⟨h3, h4⟩ := Draw_visit_retry c p e hn hd ps _ h1
    refine ⟨h3, ?_⟩
    simp only [Draw_visit]
    rw [h4, h2, List.count_cons]
    simp only [beq_iff_eq]
    omega

theorem DrawFrames_retry (p : Nat) (e : NroEntry) (hn : needs_icon e) :
    ∀ (frames : List Frame) (m : Menu), m.m_entries[p]? = some e →
      (∀ f ∈ frames, f.collab.nro_get_icon e.path e.icon_size e.icon_offset = [] ∧
        f.m_start ≤ p ∧ p < f.m_start + 9) →
      ∃ m1 calls, DrawFrames frames m = some (m1, calls) ∧ m1.m_entries[p]? = some e ∧
        List.countP (fun d => decide (d.pos = p)) calls = frames.length
  | [], m, hp, _ => ⟨m, [], rfl, hp, rfl⟩
  | f :: fs, m, hp, hf => by
    obtain ⟨hd, hlo, hhi⟩ := hf f (List.mem_cons_self _ _)
    have hlen : p < m.m_entries.length := (List.getElem?_eq_some.1 hp).1
    have hcount : (List.range' f.m_start (min 9 (m.m_entries.length - f.m_start))).count p
        = 1 :=
      List.count_eq_one_of_mem (List.nodup_range' _ _)
        (List.mem_range'_1.2 ⟨hlo, by omega⟩)
    obtain ⟨h1, h2⟩ := Draw_visit_retry f.collab p e hn hd
      (List.range' f.m_start (min 9 (m.m_entries.length - f.m_start)))
      { entries := m.m_entries, visited := [], calls := [] } hp
    obtain ⟨m2, calls, hrun, hp2, hc2⟩ := DrawFrames_retry p e hn fs
      { m_entries := (Draw_visit f.collab
          (List.range' f.m_start (min 9 (m.m_entries.length - f.m_start)))
          { entries := m.m_entries, visited := [], calls := [] }).entries,
        m_index := m.m_index, m_start := f.m_start, m_sort := m.m_sort, m_order := m.m_order }
      h1 (fun g hg => hf g (List.mem_cons_of_mem _ hg))
    refine ⟨m2, (Draw_visit f.collab
        (List.range' f.m_start (min 9 (m.m_entries.length - f.m_start)))
        { entries := m.m_entries, visited := [], calls := [] }).calls ++ calls, ?_, hp2, ?_⟩
    · unfold DrawFrames
      rw [Draw_eq]
      dsimp only
      rw [hrun]
    · rw [List.countP_append, h2, hc2, hcount, List.length_cons]
      simp only [List.countP_nil]
      omega

theorem countP_le_one_of_pairwise (p : Nat) :
    ∀ calls : List IconCall, calls.Pairwise (fun c d => c.pos = d.pos → c.result = []) →
      List.countP (fun d => decide (d.pos = p ∧ d.result ≠ [])) calls ≤ 1
  | [], _ => Nat.zero_le _
  | a :: l, h => by
    have hc := List.pairwise_cons.1 h
    have ih := countP_le_one_of_pairwise p l hc.2
    by_cases ha : a.pos = p ∧ a.result ≠ []
    · have hz : List.countP (fun d => decide (d.pos = p ∧ d.result ≠ [])) l = 0 := by
        rw [List.countP_eq_zero]
        intro b hb hpb
        have hpb2 : b.pos = p ∧ b.result ≠ [] := of_decide_eq_true hpb
        exact ha.2 (hc.1 b hb (ha.1.trans hpb2.1.symm))
      rw [List.countP_cons, hz]
      split <;> omega
    · have hna : ¬ decide (a.pos = p ∧ a.result ≠ []) = true := fun hd =>
        ha (of_decide_eq_true hd)
      rw [List.countP_cons, if_neg hna]
      exact ih

/-- C10, as amended: every run of frames ends; an invocation of
`nro_get_icon` that is followed by a later one for the same entry returned no
bytes, so at most one invocation per entry returns bytes; it is only invoked
for entries that had an icon range, no icon bytes and no image at the start;
and for such an entry, visible in every frame, whose decode returns no bytes
in every frame, it is invoked once per frame. -/
theorem icon_decode_repeats_until_bytes (frames : List Frame) (m : Menu) :
    ∃ m1 calls, DrawFrames frames m = some (m1, calls) ∧
      calls.Pairwise (fun c d => c.pos = d.pos → c.result = []) ∧
      (∀ p : Nat, List.countP (fun d => decide (d.pos = p ∧ d.result ≠ [])) calls ≤ 1) ∧
      (∀ c ∈ calls, ∃ e, m.m_entries[c.pos]? = some e ∧ needs_icon e) ∧
      (∀ (p : Nat) (e : NroEntry), m.m_entries[p]? = some e → needs_icon e →
        (∀ f ∈ frames, f.collab.nro_get_icon e.path e.icon_size e.icon_offset = [] ∧
          f.m_start ≤ p ∧ p < f.m_start + 9) →
        List.countP (fun d => decide (d.pos = p)) calls = frames.length) := by
  obtain ⟨m1, calls, hrun, hinv⟩ := DrawFrames_inv m.m_entries frames m [] (DrawInv_init _)
  rw [List.nil_append] at hinv
  refine ⟨m1, calls, hrun, hinv.pairwise,
    fun p => countP_le_one_of_pairwise p calls hinv.pairwise, hinv.called, ?_⟩
  intro p e hp hn hf
  obtain ⟨m2, calls2, hrun2, _, hcount⟩ := DrawFrames_retry p e hn frames m hp hf
  rw [hrun] at hrun2
  rw [(Prod.mk.inj (Option.some.inj hrun2)).2]
  exact hcount

/-- C10 on one entry with an icon range, drawn in two frames in which the
decode returns no bytes: `nro_get_icon` is invoked for it in both frames. -/
theorem icon_decode_repeats_until_bytes_witness :
    menuIcon.m_entries[0]? = some entryIcon ∧ needs_icon entryIcon ∧
    ∃ m1 calls, DrawFrames [frameFail, frameFail] menuIcon = some (m1, calls) ∧
      List.countP (fun d => decide (d.pos = 0)) calls = 2 := by
  obtain ⟨m1, calls, hrun, _, _, _, hretry⟩ :=
    icon_decode_repeats_until_bytes [frameFail, frameFail] menuIcon
  exact ⟨by decide, by decide, m1, calls, hrun,
    hretry 0 entryIcon (by decide) (by decide) (by decide)⟩

/-- C10 as stated fails: for one visible entry with an icon range, two frames
with a decode that returns no bytes and one with a decode that returns bytes
make three invocations of `nro_get_icon`; a fourth frame makes none. -/
theorem failed_icon_decode_is_retried :
    (DrawFrames [frameFail, frameFail, frameOk, frameOk] menuIcon).map (fun r => r.2) =
      some [{ pos := 0, result := [] }, { pos := 0, result := [] },
        { pos := 0, result := [255, 216] }] ∧
    ((DrawFrames [frameFail, frameFail, frameOk, frameOk] menuIcon).map
      (fun r => List.countP (fun d => decide (d.pos = 0)) r.2)) = some 3 := by
  decide

/-! ## Declined and failed deletes -/

/-- C15: when the confirmation box is dismissed, answered with "Back", or
`DeleteFile` fails, the delete callback leaves the menu as it was: the same
entries, cursor and scroll offset. -/
theorem Delete_declined_or_failed (m : Menu) (op_index : Option Int) (rc : Nat)
    (h : op_index = none ∨ op_index = some 0 ∨ rc ≠ 0) :
    Delete_callback m op_index rc = m ∧
    (Delete_callback m op_index rc).m_entries = m.m_entries ∧
    (Delete_callback m op_index rc).m_index = m.m_index ∧
    (Delete_callback m op_index rc).m_start = m.m_start := by
  have hm : Delete_callback m op_index rc = m := by
    unfold Delete_callback
    rcases h with h | h | h
    · rw [h]
    · rw [h]
      dsimp only
      rw [if_neg (fun hne => hne rfl)]
    · cases op_index with
      | none => rfl
      | some v =>
        dsimp only
        split <;> rfl
  rw [hm]
  exact ⟨rfl, rfl, rfl, rfl⟩

/-- C15 on [A, B, C] with the cursor on C: a failed `DeleteFile` (result code
0x202) changes nothing. -/
theorem Delete_declined_or_failed_witness :
    Delete_callback menuABC (some 1) 514 = menuABC :=
  (Delete_declined_or_failed menuABC (some 1) 514 (Or.inr (Or.inr (by decide)))).1

/-! ## The play log merge -/

theorem ini_browse_visitor :
    ∀ (playlog : List IniTriple) (user : IniUser),
      ini_browse ini_visitor playlog user =
        playlog.foldl (fun u t => (ini_visitor u t).1) user
  | [], _ => rfl
  | t :: ts, user => by
    have h1 : (ini_visitor user t).2 = 1 := rfl
    unfold ini_browse
    rw [h1, if_neg (by decide), List.foldl_cons]
    exact ini_browse_visitor ts _

theorem getElem?_ini_write (entries : List NroEntry) (i j : Nat) (f : Hbini → Hbini) :
    (ini_write entries i f)[j]? =
      if i = j then (entries[j]?).map (fun e => { e with hbini := f e.hbini })
      else entries[j]? := by
  unfold ini_write
  cases hi : entries[i]? with
  | none =>
    dsimp only
    by_cases hij : i = j
    · rw [if_pos hij, ← hij, hi]
      rfl
    · rw [if_neg hij]
  | some e =>
    dsimp only
    by_cases hij : i = j
    · rw [if_pos hij, ← hij, hi, List.getElem?_set_self (List.getElem?_eq_some.1 hi).1]
      rfl
    · rw [if_neg hij, List.getElem?_set_ne hij]

theorem map_strip_ini_write (entries : List NroEntry) (i : Nat) (f : Hbini → Hbini) :
    (ini_write entries i f).map strip_hbini = entries.map strip_hbini := by
  apply List.ext_getElem?
  intro j
  rw [List.getElem?_map, List.getElem?_map, getElem?_ini_write]
  by_cases hij : i = j
  · rw [if_pos hij]
    cases entries[j]? <;> rfl
  · rw [if_neg hij]

theorem ini_find_strip :
    ∀ (entries : List NroEntry) (Section : String),
      ini_find (entries.map strip_hbini) Section = ini_find entries Section
  | [], _ => rfl
  | e :: es, Section => by
    have hp : (strip_hbini e).path = e.path := rfl
    simp only [List.map_cons, ini_find, hp, ini_find_strip es Section]

theorem ini_find_congr {A B : List NroEntry} (h : A.map strip_hbini = B.map strip_hbini)
    (Section : String) : ini_find A Section = ini_find B Section := by
  rw [← ini_find_strip A, ← ini_find_strip B, h]

theorem ini_find_some :
    ∀ (entries : List NroEntry) (Section : String) (i : Nat),
      ini_find entries Section = some i →
        ∃ e, entries[i]? = some e ∧ FsPath_eq e.path Section = true
  | [], _, _, h => by
    simp [ini_find] at h
  | e :: es, Section, i, h => by
    unfold ini_find at h
    by_cases hp : FsPath_eq e.path Section = true
    · rw [if_pos hp] at h
      rw [← Option.some.inj h]
      exact ⟨e, List.getElem?_cons_zero, hp⟩
    · rw [if_neg hp] at h
      cases hf : ini_find es Section with
      | none =>
        rw [hf] at h
        cases h
      | some k =>
        rw [hf] at h
        rw [← Option.some.inj h]
        obtain ⟨e2, he2, hp2⟩ := ini_find_some es Section k hf
        exact ⟨e2, by simpa using he2, hp2⟩

theorem ini_visitor_fst (user : IniUser) (t : IniTriple) :
    (ini_visitor user t).1 =
      { entires :=
          match ini_target user t with
          | some i => ini_write user.entires i (ini_assign t.Key t.Value)
          | none => user.entires,
        ini := ini_target user t,
        last_section := t.Section } := by
  unfold ini_visitor ini_target
  by_cases hs : user.last_section ≠ t.Section
  · rw [if_pos hs, if_pos hs]
    dsimp only
    cases ini_find user.entires t.Section <;> rfl
  · rw [if_neg hs, if_neg hs]
    have hs2 : user.last_section = t.Section := not_not.1 hs
    obtain ⟨E, ini, ls⟩ := user
    dsimp only at hs2 ⊢
    rw [← hs2]
    cases ini <;> rfl

theorem ini_visitor_strip (user : IniUser) (t : IniTriple) :
    (ini_visitor user t).1.entires.map strip_hbini = user.entires.map strip_hbini := by
  rw [ini_visitor_fst]
  dsimp only
  cases ini_target user t with
  | none => rfl
  | some i => exact map_strip_ini_write _ _ _

theorem ini_fold_strip :
    ∀ (playlog : List IniTriple) (user : IniUser),
      (playlog.foldl (fun u t => (ini_visitor u t).1) user).entires.map strip_hbini =
        user.entires.map strip_hbini
  | [], _ => rfl
  | t :: ts, user => by
    rw [List.foldl_cons, ini_fold_strip ts, ini_visitor_strip]

theorem merge_playlog_strip (entries : List NroEntry) (playlog : List IniTriple) :
    (merge_playlog entries playlog).map strip_hbini = entries.map strip_hbini := by
  unfold merge_playlog
  rw [ini_browse_visitor, ini_fold_strip]

theorem merge_playlog_length (entries : List NroEntry) (playlog : List IniTriple) :
    (merge_playlog entries playlog).length = entries.length := by
  have h := congrArg List.length (merge_playlog_strip entries playlog)
  rwa [List.length_map, List.length_map] at h

theorem eq_of_strip_hbini {a b : NroEntry} (h : strip_hbini b = strip_hbini a) :
    b = { a with hbini := b.hbini } := by
  cases a
  cases b
  simp only [strip_hbini, NroEntry.mk.injEq] at h
  simp only [NroEntry.mk.injEq]
  tauto

theorem ini_fold_untouched (i : Nat) :
    ∀ (playlog : List IniTriple) (user : IniUser), user.ini ≠ some i →
      (∀ t ∈ playlog, ini_find user.entires t.Section ≠ some i) →
      (playlog.foldl (fun u t => (ini_visitor u t).1) user).entires[i]? = user.entires[i]?
  | [], _, _, _ => rfl
  | t :: ts, user, hini, hfind => by
    have htarget : ini_target user t ≠ some i := by
      unfold ini_target
      split
      · exact hfind t (List.mem_cons_self _ _)
      · exact hini
    have hstep : (ini_visitor user t).1.entires[i]? = user.entires[i]? := by
      rw [ini_visitor_fst]
      dsimp only
      cases hk : ini_target user t with
      | none => rfl
      | some k =>
        dsimp only
        have hki : k ≠ i := fun h => htarget (by rw [hk, h])
        rw [getElem?_ini_write, if_neg hki]
    have hini2 : (ini_visitor user t).1.ini ≠ some i := by
      rw [ini_visitor_fst]
      exact htarget
    have hfind2 : ∀ t2 ∈ ts, ini_find (ini_visitor user t).1.entires t2.Section ≠ some i := by
      intro t2 ht2
      rw [ini_find_congr (ini_visitor_strip user t)]
      exact hfind t2 (List.mem_cons_of_mem _ ht2)
    rw [List.foldl_cons, ini_fold_untouched i ts _ hini2 hfind2, hstep]

/-- C11: the merge keeps the number of entries, leaves at every position the
same entry with at most its usage statistics (`timestamp`, `launch_count`)
replaced, and leaves an entry whose path equals no section of the stream
exactly as it was. -/
theorem merge_playlog_annotates (entries : List NroEntry) (playlog : List IniTriple) :
    (merge_playlog entries playlog).length = entries.length ∧
    (∀ (i : Nat) (e : NroEntry), entries[i]? = some e →
      ∃ h : Hbini, (merge_playlog entries playlog)[i]? = some { e with hbini := h }) ∧
    (∀ (i : Nat) (e : NroEntry), entries[i]? = some e →
      (∀ t ∈ playlog, FsPath_eq e.path t.Section = false) →
      (merge_playlog entries playlog)[i]? = some e) := by
  refine ⟨merge_playlog_length entries playlog, ?_, ?_⟩
  · intro i e he
    have h := congrArg (fun l => l[i]?) (merge_playlog_strip entries playlog)
    simp only [List.getElem?_map, he, Option.map_some'] at h
    cases hm : (merge_playlog entries playlog)[i]? with
    | none =>
      rw [hm] at h
      cases h
    | some e2 =>
      rw [hm] at h
      exact ⟨e2.hbini, congrArg some (eq_of_strip_hbini (Option.some.inj h))⟩
  · intro i e he hno
    unfold merge_playlog
    rw [ini_browse_visitor, ini_fold_untouched i playlog _ (by simp) ?_]
    · exact he
    · intro t ht hfind
      obtain ⟨e2, he2, hp⟩ := ini_find_some _ _ _ hfind
      have hee : e2 = e := Option.some.inj (he2.symm.trans he)
      rw [hee, hno t ht] at hp
      cases hp

/-- C11 on [A, B] with a log that names only B: A is untouched, B keeps its
path and name and gets the logged timestamp. -/
theorem merge_playlog_annotates_witness :
    [entryA, entryB][0]? = some entryA ∧
    (∀ t ∈ [(⟨"/switch/B.nro", "timestamp", "300"⟩ : IniTriple)],
      FsPath_eq entryA.path t.Section = false) ∧
    (merge_playlog [entryA, entryB] [⟨"/switch/B.nro", "timestamp", "300"⟩])[0]? =
      some entryA ∧
    (merge_playlog [entryA, entryB] [⟨"/switch/B.nro", "timestamp", "300"⟩])[1]? =
      some { entryB with hbini := { timestamp := 300, launch_count := 0 } } :=
  ⟨by decide, by decide,
    (merge_playlog_annotates [entryA, entryB] [⟨"/switch/B.nro", "timestamp", "300"⟩]).2.2
      0 entryA (by decide) (by decide),
    by decide⟩

/-! ## The merge against the record-by-record merge -/

theorem ini_find_eq_findIdx? :
    ∀ (entries : List NroEntry) (Section : String),
      ini_find entries Section = entries.findIdx? (fun e => e.path == Section)
  | [], _ => rfl
  | e :: es, Section => by
    rw [List.findIdx?_cons, List.findIdx?_succ, ← ini_find_eq_findIdx? es Section]
    rfl

theorem modify_eq_ini_write (entries : List NroEntry) (i : Nat) (Key Value : String) :
    entries.modify
      (fun e =>
        if Key = "timestamp" then
          { e with hbini := { e.hbini with timestamp := int_to_u64 (atoi Value) } }
        else if Key = "launch_count" then
          { e with hbini := { e.hbini with launch_count := int_to_u32 (atoi Value) } }
        else e) i = ini_write entries i (ini_assign Key Value) := by
  apply List.ext_getElem?
  intro j
  rw [List.getElem?_modify, getElem?_ini_write]
  by_cases hij : i = j
  · rw [if_pos hij]
    cases entries[j]? with
    | none => rfl
    | some e =>
      simp only [Option.map_eq_map, Option.map_some', if_pos hij, ini_assign]
      split
      · rfl
      · split <;> rfl
  · rw [if_neg hij]
    cases entries[j]? with
    | none => rfl
    | some e => simp only [Option.map_eq_map, Option.map_some', if_neg hij]

theorem naive_merge_step_eq (entries : List NroEntry) (t : IniTriple) :
    naive_merge_step entries t =
      match ini_find entries t.Section with
      | some i => ini_write entries i (ini_assign t.Key t.Value)
      | none => entries := by
  unfold naive_merge_step
  rw [← ini_find_eq_findIdx?]
  cases ini_find entries t.Section with
  | none => rfl
  | some i => exact modify_eq_ini_write entries i t.Key t.Value

theorem ini_find_none :
    ∀ (entries : List NroEntry) (Section : String),
      (∀ e ∈ entries, e.path ≠ Section) → ini_find entries Section = none
  | [], _, _ => rfl
  | e :: es, Section, h => by
    have he : ¬ FsPath_eq e.path Section = true := by
      intro hp
      exact h e (List.mem_cons_self _ _) (by simpa [FsPath_eq] using hp)
    unfold ini_find
    rw [if_neg he, ini_find_none es Section (fun e2 h2 => h e2 (List.mem_cons_of_mem _ h2))]
    rfl

theorem ini_fold_eq_naive :
    ∀ (playlog : List IniTriple) (user : IniUser),
      user.ini = ini_find user.entires user.last_section →
      (playlog.foldl (fun u t => (ini_visitor u t).1) user).entires =
        playlog.foldl naive_merge_step user.entires
  | [], _, _ => rfl
  | t :: ts, user, hco => by
    have htarget : ini_target user t = ini_find user.entires t.Section := by
      unfold ini_target
      by_cases hs : user.last_section ≠ t.Section
      · rw [if_pos hs]
      · rw [if_neg hs, hco, not_not.1 hs]
    have hent : (ini_visitor user t).1.entires = naive_merge_step user.entires t := by
      rw [ini_visitor_fst, naive_merge_step_eq, htarget]
    have hco2 : (ini_visitor user t).1.ini =
        ini_find (ini_visitor user t).1.entires (ini_visitor user t).1.last_section := by
      rw [ini_find_congr (ini_visitor_strip user t), ini_visitor_fst]
      exact htarget
    rw [List.foldl_cons, List.foldl_cons, ini_fold_eq_naive ts _ hco2, hent]

/-- C20: when no entry has the empty path, the visitor that keeps the entry
found for the last section gives the same entries as the merge that looks the
entry up for every record. -/
theorem merge_playlog_eq_naive_merge (entries : List NroEntry) (playlog : List IniTriple)
    (h : ∀ e ∈ entries, e.path ≠ "") :
    merge_playlog entries playlog = naive_merge entries playlog := by
  unfold merge_playlog naive_merge
  rw [ini_browse_visitor]
  exact ini_fold_eq_naive playlog _ (ini_find_none entries "" h).symm

/-- C20 on [A, B] with a log that names B twice in a row and then A. -/
theorem merge_playlog_eq_naive_merge_witness :
    (∀ e ∈ [entryA, entryB], e.path ≠ "") ∧
    merge_playlog [entryA, entryB]
        [⟨"/switch/B.nro", "timestamp", "300"⟩, ⟨"/switch/B.nro", "launch_count", "4"⟩,
          ⟨"/switch/A.nro", "launch_count", "7"⟩] =
      naive_merge [entryA, entryB]
        [⟨"/switch/B.nro", "timestamp", "300"⟩, ⟨"/switch/B.nro", "launch_count", "4"⟩,
          ⟨"/switch/A.nro", "launch_count", "7"⟩] :=
  ⟨by decide, merge_playlog_eq_naive_merge _ _ (by decide)⟩

/-! ## Merging twice -/

theorem ini_assign_timestamp (Key Value : String) :
    (∀ h, (ini_assign Key Value h).timestamp = h.timestamp) ∨
      ∃ c, ∀ h, (ini_assign Key Value h).timestamp = c := by
  unfold ini_assign
  by_cases h1 : Key = "timestamp"
  · right
    exact ⟨int_to_u64 (atoi Value), fun h => by rw [if_pos h1]⟩
  · left
    intro h
    rw [if_neg h1]
    split <;> rfl

theorem ini_assign_launch_count (Key Value : String) :
    (∀ h, (ini_assign Key Value h).launch_count = h.launch_count) ∨
      ∃ c, ∀ h, (ini_assign Key Value h).launch_count = c := by
  unfold ini_assign
  by_cases h1 : Key = "timestamp"
  · left
    intro h
    rw [if_pos h1]
  · by_cases h2 : Key = "launch_count"
    · right
      exact ⟨int_to_u32 (atoi Value), fun h => by rw [if_neg h1, if_pos h2]⟩
    · left
      intro h
      rw [if_neg h1, if_neg h2]

theorem getElem?_ini_write_some {entries : List NroEntry} {i j : Nat} {f : Hbini → Hbini}
    {x : NroEntry} (h : (ini_write entries i f)[j]? = some x) :
    ∃ e, entries[j]? = some e ∧
      ((i = j ∧ x = { e with hbini := f e.hbini }) ∨ (i ≠ j ∧ x = e)) := by
  rw [getElem?_ini_write] at h
  by_cases hij : i = j
  · rw [if_pos hij] at h
    cases he : entries[j]? with
    | none =>
      rw [he] at h
      cases h
    | some e =>
      rw [he] at h
      exact ⟨e, rfl, Or.inl ⟨hij, (Option.some.inj h).symm⟩⟩
  · rw [if_neg hij] at h
    exact ⟨x, h, Or.inr ⟨hij, rfl⟩⟩

theorem MergeRel_ini_write {A B E : List NroEntry} (h : MergeRel A B E) (i : Nat)
    (Key Value : String) :
    MergeRel (ini_write A i (ini_assign Key Value)) (ini_write B i (ini_assign Key Value)) E := by
  constructor
  · rw [map_strip_ini_write, map_strip_ini_write]
    exact h.strip
  · intro j a2 b2 ha2 hb2
    obtain ⟨a, ha, hca⟩ := getElem?_ini_write_some ha2
    obtain ⟨b, hb, hcb⟩ := getElem?_ini_write_some hb2
    rcases hca with ⟨hij, hxa⟩ | ⟨hij, hxa⟩
    · rcases hcb with ⟨_, hxb⟩ | ⟨hne, _⟩
      · rw [hxa, hxb]
        dsimp only
        rcases ini_assign_timestamp Key Value with hid | ⟨c, hc⟩
        · rw [hid, hid]
          exact h.timestamp j a b ha hb
        · left
          rw [hc, hc]
      · exact absurd hij hne
    · rcases hcb with ⟨heq, _⟩ | ⟨_, hxb⟩
      · exact absurd heq hij
      · rw [hxa, hxb]
        exact h.timestamp j a b ha hb
  · intro j a2 b2 ha2 hb2
    obtain ⟨a, ha, hca⟩ := getElem?_ini_write_some ha2
    obtain ⟨b, hb, hcb⟩ := getElem?_ini_write_some hb2
    rcases hca with ⟨hij, hxa⟩ | ⟨hij, hxa⟩
    · rcases hcb with ⟨_, hxb⟩ | ⟨hne, _⟩
      · rw [hxa, hxb]
        dsimp only
        rcases ini_assign_launch_count Key Value with hid | ⟨c, hc⟩
        · rw [hid, hid]
          exact h.launch_count j a b ha hb
        · left
          rw [hc, hc]
      · exact absurd hij hne
    · rcases hcb with ⟨heq, _⟩ | ⟨_, hxb⟩
      · exact absurd heq hij
      · rw [hxa, hxb]
        exact h.launch_count j a b ha hb

theorem MergeRel_fold (E : List NroEntry) :
    ∀ (playlog : List IniTriple) (uA uB : IniUser), uA.ini = uB.ini →
      uA.last_section = uB.last_section → MergeRel uA.entires uB.entires E →
      MergeRel (playlog.foldl (fun u t => (ini_visitor u t).1) uA).entires
        (playlog.foldl (fun u t => (ini_visitor u t).1) uB).entires E
  | [], _, _, _, _, h => h
  | t :: ts, uA, uB, hini, hsec, h => by
    have htarget : ini_target uB t = ini_target uA t := by
      unfold ini_target
      rw [hini, hsec, ini_find_congr h.strip]
    have hA := ini_visitor_fst uA t
    have hB := ini_visitor_fst uB t
    rw [htarget] at hB
    rw [List.foldl_cons, List.foldl_cons]
    apply MergeRel_fold E ts
    · rw [hA, hB]
    · rw [hA, hB]
    · rw [hA, hB]
      dsimp only
      cases ini_target uA t with
      | none => exact h
      | some i => exact MergeRel_ini_write h i t.Key t.Value

theorem eq_of_MergeRel {B E : List NroEntry} (h : MergeRel E B E) : B = E := by
  apply List.ext_getElem?
  intro i
  have hs := congrArg (fun l => l[i]?) h.strip
  simp only [List.getElem?_map] at hs
  cases hb : B[i]? with
  | none =>
    cases he : E[i]? with
    | none => rfl
    | some e =>
      rw [hb, he] at hs
      cases hs
  | some b =>
    cases he : E[i]? with
    | none =>
      rw [hb, he] at hs
      cases hs
    | some e =>
      rw [hb, he] at hs
      have hstrip : strip_hbini b = strip_hbini e := Option.some.inj hs
      have hts : b.hbini.timestamp = e.hbini.timestamp := by
        rcases h.timestamp i e b he hb with h1 | ⟨e2, he2, h2⟩
        · exact h1
        · rw [h2, Option.some.inj (he2.symm.trans he)]
      have hlc : b.hbini.launch_count = e.hbini.launch_count := by
        rcases h.launch_count i e b he hb with h1 | ⟨e2, he2, h2⟩
        · exact h1
        · rw [h2, Option.some.inj (he2.symm.trans he)]
      have hh : b.hbini = e.hbini := by
        cases hbh : b.hbini
        cases heh : e.hbini
        rw [hbh, heh] at hts hlc
        dsimp only at hts hlc
        rw [hts, hlc]
      rw [eq_of_strip_hbini hstrip, hh]

/-- C12: merging a stream into the result of merging the same stream gives
that result again: the same entries with the same usage timestamps and launch
counts. -/
theorem merge_playlog_idempotent (entries : List NroEntry) (playlog : List IniTriple) :
    merge_playlog (merge_playlog entries playlog) playlog = merge_playlog entries playlog := by
  have hinit : MergeRel entries (merge_playlog entries playlog) (merge_playlog entries playlog) :=
    ⟨merge_playlog_strip entries playlog, fun i _ b _ hb => Or.inr ⟨b, hb, rfl⟩,
      fun i _ b _ hb => Or.inr ⟨b, hb, rfl⟩⟩
  have hfold := MergeRel_fold (merge_playlog entries playlog) playlog
    { entires := entries, ini := none, last_section := "" }
    { entires := merge_playlog entries playlog, ini := none, last_section := "" }
    rfl rfl hinit
  rw [← ini_browse_visitor, ← ini_browse_visitor] at hfold
  exact eq_of_MergeRel hfold

/-! ## The scroll offset along a run -/

theorem SetIndex_m_start (m : Menu) (index : Nat) :
    (SetIndex m index).m_start = if index = 0 then 0 else m.m_start := by
  unfold SetIndex
  dsimp only
  split <;> rfl

theorem run_append :
    ∀ (as bs : List Step) (m : Menu), run (as ++ bs) m = run bs (run as m)
  | [], _, _ => rfl
  | a :: as, bs, m => by
    simp only [List.cons_append, run]
    exact run_append as bs _

/-- On 9 entries with the cursor on the second to last and the scroll offset
past the cursor, Down moves the cursor to the last entry and, the unsigned
difference `m_index - m_start` having wrapped, advances the scroll offset. -/
theorem Down_below_scroll (t : Menu) (hlen : t.m_entries.length = 9) (hidx : t.m_index = 7)
    (h9 : 9 ≤ t.m_start) (hs : t.m_start < U64) :
    (Down t).m_entries = t.m_entries ∧ (Down t).m_index = 8 ∧
    (Down t).m_start = add64 t.m_start 3 := by
  have e1 : sub64 9 1 = 8 := by decide
  have e2 : sub64 9 3 = 6 := by decide
  have hwrap : sub64 8 t.m_start ≥ 9 := by
    rw [sub64_of_lt (by omega) hs]
    unfold U64 at *
    omega
  unfold Down
  rw [hlen, hidx, e1, e2, if_pos (show 7 < 8 by decide), if_neg (show ¬ 7 < 6 by decide)]
  dsimp only
  rw [SetIndex_m_index, SetIndex_m_start, if_neg (show ¬ 8 = 0 by decide), if_pos hwrap]
  exact ⟨SetIndex_m_entries t 8, SetIndex_m_index t 8, rfl⟩

theorem Left_from_last (s : Menu) (hidx : s.m_index = 8) :
    (Left s).m_entries = s.m_entries ∧ (Left s).m_index = 7 ∧ (Left s).m_start = s.m_start := by
  have e1 : sub64 8 1 = 7 := by decide
  unfold Left
  rw [hidx, if_pos (by decide), e1]
  refine ⟨SetIndex_m_entries s 7, SetIndex_m_index s 7, ?_⟩
  rw [SetIndex_m_start, if_neg (by decide)]

theorem Left_Down_cycle (s : Menu) (hlen : s.m_entries.length = 9) (hidx : s.m_index = 8)
    (h9 : 9 ≤ s.m_start) (hs : s.m_start < U64) :
    (run [Step.LEFT, Step.DOWN] s).m_entries.length = 9 ∧
    (run [Step.LEFT, Step.DOWN] s).m_index = 8 ∧
    (run [Step.LEFT, Step.DOWN] s).m_start = add64 s.m_start 3 := by
  obtain ⟨l1, l2, l3⟩ := Left_from_last s hidx
  obtain ⟨d1, d2, d3⟩ := Down_below_scroll (Left s) (by rw [l1, hlen]) l2
    (by rw [l3]; exact h9) (by rw [l3]; exact hs)
  have hr : run [Step.LEFT, Step.DOWN] s = Down (Left s) := rfl
  rw [hr, d1, l1, d2, d3, l3]
  exact ⟨hlen, rfl, rfl⟩

theorem Left_Down_cycles :
    ∀ (k : Nat) (s : Menu), s.m_entries.length = 9 → s.m_index = 8 → 9 ≤ s.m_start →
      s.m_start + 3 * k < U64 →
      (run (repeat_steps k [Step.LEFT, Step.DOWN]) s).m_entries.length = 9 ∧
      (run (repeat_steps k [Step.LEFT, Step.DOWN]) s).m_index = 8 ∧
      (run (repeat_steps k [Step.LEFT, Step.DOWN]) s).m_start = s.m_start + 3 * k
  | 0, _, hlen, hidx, _, _ => ⟨hlen, hidx, rfl⟩
  | k + 1, s, hlen, hidx, h9, hk => by
    obtain ⟨c1, c2, c3⟩ := Left_Down_cycle s hlen hidx h9 (by omega)
    have ha : add64 s.m_start 3 = s.m_start + 3 := add64_of_lt (by omega)
    rw [ha] at c3
    obtain ⟨r1, r2, r3⟩ := Left_Down_cycles k (run [Step.LEFT, Step.DOWN] s) c1 c2
      (by omega) (by omega)
    have hr : run (repeat_steps (k + 1) [Step.LEFT, Step.DOWN]) s =
        run (repeat_steps k [Step.LEFT, Step.DOWN]) (run [Step.LEFT, Step.DOWN] s) :=
      run_append [Step.LEFT, Step.DOWN] (repeat_steps k [Step.LEFT, Step.DOWN]) s
    rw [hr]
    exact ⟨r1, r2, by omega⟩

/-- Why the length of a run is bounded above: the scroll offset is a 64-bit
number and `2 ^ 64` is not a multiple of 3. After a scan of 16 entries, five
Downs and seven deletes leave 9 entries with the cursor on the last one and
the scroll offset at 9, past the cursor; from there each Left, Down pair
advances the scroll offset by 3, and 6148914691236517203 pairs, more key
presses than a device can be given, would carry it around `2 ^ 64` to 2. -/
theorem scroll_offset_wraps_around :
    (run (List.replicate 5 Step.DOWN ++ List.replicate 7 Step.Delete ++
        repeat_steps 6148914691236517202 [Step.LEFT, Step.DOWN] ++ [Step.LEFT, Step.DOWN])
      (scannedMenu 16)).m_start = 2 ∧
    (scannedMenu 16).m_start = 0 ∧ (2 : Nat) % 3 ≠ 0 := by
  have p1 : (run (List.replicate 5 Step.DOWN ++ List.replicate 7 Step.Delete)
      (scannedMenu 16)).m_entries.length = 9 := by decide
  have p2 : (run (List.replicate 5 Step.DOWN ++ List.replicate 7 Step.Delete)
      (scannedMenu 16)).m_index = 8 := by decide
  have p3 : (run (List.replicate 5 Step.DOWN ++ List.replicate 7 Step.Delete)
      (scannedMenu 16)).m_start = 9 := by decide
  obtain ⟨c1, c2, c3⟩ := Left_Down_cycles 6148914691236517202 _ p1 p2 (by omega)
    (by rw [p3]; decide)
  rw [p3] at c3
  obtain ⟨_, _, d3⟩ := Left_Down_cycle _ c1 c2 (by rw [c3]; decide) (by rw [c3]; decide)
  rw [c3] at d3
  rw [run_append, run_append, d3]
  exact ⟨by decide, by decide, by decide⟩

/-! ## The entry lookup of SetIndex -/

/-- After a scan that leaves at least one entry, and after a successful
delete from at least two entries with the cursor in range, the lookup of
`SetIndex` finds an entry. -/
theorem SetIndex_entry_found (m : Menu) :
    (∀ scanned playlog, scanned ≠ [] → (ScanHomebrew_entry m scanned playlog).isSome = true) ∧
    (m.m_entries.length < U64 → m.m_index < m.m_entries.length → 2 ≤ m.m_entries.length →
      (Delete_entry m).isSome = true) := by
  constructor
  · intro scanned playlog hne
    unfold ScanHomebrew_entry SetIndex_entry
    rw [SetIndex_m_index, SetIndex_m_entries]
    have hlen : (Menu.Sort { m with m_entries := merge_playlog scanned playlog }).m_entries.length
        = scanned.length :=
      (Sort_perm _).length_eq.trans (merge_playlog_length scanned playlog)
    have hpos : 0 < scanned.length := List.length_pos.2 hne
    rw [List.getElem?_eq_getElem (by omega)]
    rfl
  · intro hlen hi h2
    unfold Delete_entry SetIndex_entry
    rw [SetIndex_m_index, SetIndex_m_entries]
    dsimp only
    have hl : (m.m_entries.eraseIdx m.m_index).length = m.m_entries.length - 1 := by
      rw [List.length_eraseIdx, if_pos hi]
    by_cases h0 : m.m_index = 0
    · rw [if_neg (fun hne => hne h0), List.getElem?_eq_getElem (by omega)]
      rfl
    · rw [if_pos h0, sub64_of_le (by omega) (by omega), List.getElem?_eq_getElem (by omega)]
      rfl

/-- C14, evaluated where it fails: after a scan that finds no packages, and
after deleting the only entry, `SetIndex(0)` looks up `m_entries[0]` in an
empty collection. -/
theorem SetIndex_reads_empty_collection :
    (ScanHomebrew (mkMenu 0 0 0) [] []).m_entries = [] ∧
    ScanHomebrew_entry (mkMenu 0 0 0) [] [] = none ∧
    (Delete_callback (mkSortMenu [entryA] SortType_Updated OrderType_Decending)
      (some 1) 0).m_entries = [] ∧
    Delete_entry (mkSortMenu [entryA] SortType_Updated OrderType_Decending) = none := by
  decide

/-! ## The viewport -/

theorem Draw_visit_visited (c : Collab) :
    ∀ (ps : List Nat) (st : DrawState), (Draw_visit c ps st).visited = st.visited ++ ps
  | [], st => (List.append_nil _).symm
  | p :: ps, st => by
    have hb : (Draw_body c p st).visited = st.visited ++ [p] := by
      unfold Draw_body
      split <;> rfl
    simp only [Draw_visit]
    rw [Draw_visit_visited c ps, hb, List.append_assoc]
    rfl

/-- C17: `Draw` ends, and its loops bind `e` to exactly the positions
`m_start`, `m_start + 1`, ... up to `min 9 (size - m_start)` of them, each
once, in increasing order, all inside the collection; with 7 entries and the
scroll offset at 3 these are 3, 4, 5, 6. -/
theorem Draw_visits_viewport (c : Collab) (m : Menu) :
    ∃ m1 st, Draw c m = some (m1, st) ∧
      st.visited = List.range' m.m_start (min 9 (m.m_entries.length - m.m_start)) ∧
      st.visited.Pairwise (fun p q => p < q) ∧
      (∀ p ∈ st.visited, m.m_start ≤ p ∧ p < m.m_start + 9 ∧ p < m.m_entries.length) ∧
      (∀ p, m.m_start ≤ p → p < m.m_start + 9 → p < m.m_entries.length → p ∈ st.visited) ∧
      (Draw c (mkMenu 7 3 3)).map (fun r => r.2.visited) = some [3, 4, 5, 6] := by
  have hv : (Draw_visit c (List.range' m.m_start (min 9 (m.m_entries.length - m.m_start)))
      { entries := m.m_entries, visited := [], calls := [] }).visited =
      List.range' m.m_start (min 9 (m.m_entries.length - m.m_start)) := by
    rw [Draw_visit_visited]
    rfl
  refine ⟨_, _, Draw_eq c m, hv, ?_, ?_, ?_, ?_⟩
  · rw [hv]
    exact List.pairwise_lt_range' _ _
  · intro p hp
    rw [hv, List.mem_range'_1] at hp
    omega
  · intro p h1 h2 h3
    rw [hv, List.mem_range'_1]
    omega
  · rw [Draw_eq]
    rfl

/-! ## The cursor and the viewport -/

theorem in_viewport_SetIndex (m : Menu) (x : Nat) (h1 : m.m_start ≤ x) (h2 : x < m.m_start + 9) :
    in_viewport (SetIndex m x) := by
  unfold in_viewport
  rw [SetIndex_m_index, SetIndex_m_start]
  split <;> omega

theorem in_viewport_bump (m1 : Menu) (h1 : m1.m_start ≤ m1.m_index) (h2 : m1.m_index < U64)
    (h3 : m1.m_index < m1.m_start + 12) :
    in_viewport
      (if sub64 m1.m_index m1.m_start ≥ 9 then { m1 with m_start := add64 m1.m_start 3 }
        else m1) := by
  have hs : sub64 m1.m_index m1.m_start = m1.m_index - m1.m_start := sub64_of_le h1 h2
  rw [hs]
  by_cases h9 : m1.m_index - m1.m_start ≥ 9
  · have ha : add64 m1.m_start 3 = m1.m_start + 3 := add64_of_lt (by omega)
    rw [if_pos h9]
    unfold in_viewport
    dsimp only
    rw [ha]
    omega
  · rw [if_neg h9]
    unfold in_viewport
    omega

theorem in_viewport_Down_SetIndex (m : Menu) (x : Nat) (h0 : x ≠ 0) (h1 : m.m_start ≤ x)
    (h2 : x < U64) (h3 : x < m.m_start + 12) :
    in_viewport
      (if sub64 (SetIndex m x).m_index (SetIndex m x).m_start ≥ 9 then
        { SetIndex m x with m_start := add64 (SetIndex m x).m_start 3 }
      else SetIndex m x) := by
  have hi : (SetIndex m x).m_index = x := SetIndex_m_index m x
  have hs : (SetIndex m x).m_start = m.m_start := by rw [SetIndex_m_start, if_neg h0]
  exact in_viewport_bump (SetIndex m x) (by rw [hi, hs]; exact h1) (by rw [hi]; exact h2)
    (by rw [hi, hs]; exact h3)

theorem in_viewport_Down (m : Menu) (hlen : m.m_entries.length < U64)
    (hi : m.m_index < m.m_entries.length) (hv : in_viewport m) : in_viewport (Down m) := by
  have h1 : sub64 m.m_entries.length 1 = m.m_entries.length - 1 :=
    sub64_of_le (by omega) hlen
  unfold Down
  rw [h1]
  by_cases hc : m.m_index < m.m_entries.length - 1
  · rw [if_pos hc]
    dsimp only
    by_cases h3 : 3 ≤ m.m_entries.length
    · have h2 : sub64 m.m_entries.length 3 = m.m_entries.length - 3 := sub64_of_le h3 hlen
      rw [h2]
      by_cases hd : m.m_index < m.m_entries.length - 3
      · have h4 : add64 m.m_index 3 = m.m_index + 3 := add64_of_lt (by omega)
        rw [if_pos hd, h4]
        exact in_viewport_Down_SetIndex m _ (by omega) (by omega) (by omega) (by omega)
      · rw [if_neg hd]
        exact in_viewport_Down_SetIndex m _ (by omega) (by omega) (by omega) (by omega)
    · have hl2 : m.m_entries.length = 2 := by omega
      have hi0 : m.m_index = 0 := by omega
      have hw : (0 : Nat) < sub64 2 3 := by decide
      have ha : add64 0 3 = 3 := by decide
      rw [hl2, hi0, if_pos hw, ha]
      exact in_viewport_Down_SetIndex m 3 (by omega) (by omega) (by decide) (by omega)
  · rw [if_neg hc]
    exact hv

theorem in_viewport_Up (m : Menu) (hi : m.m_index < U64) (h3 : m.m_start % 3 = 0)
    (hv : in_viewport m) : in_viewport (Up m) := by
  unfold Up
  by_cases hc : m.m_index ≥ 3
  · have hs : sub64 m.m_index 3 = m.m_index - 3 := sub64_of_le hc hi
    have hx : (SetIndex m (m.m_index - 3)).m_index = m.m_index - 3 := SetIndex_m_index _ _
    have hst := SetIndex_m_start m (m.m_index - 3)
    rw [if_pos hc, hs]
    dsimp only
    rw [hx]
    by_cases hz : m.m_index - 3 = 0
    · rw [if_pos hz] at hst
      rw [hst, if_neg (by omega)]
      unfold in_viewport
      rw [hx, hst]
      omega
    · rw [if_neg hz] at hst
      rw [hst]
      by_cases hlt : m.m_index - 3 < m.m_start
      · have hsub : sub64 m.m_start 3 = m.m_start - 3 := sub64_of_le (by omega) (by omega)
        rw [if_pos hlt]
        unfold in_viewport
        dsimp only
        rw [hsub]
        omega
      · rw [if_neg hlt]
        unfold in_viewport
        rw [hx, hst]
        omega
  · rw [if_neg hc]
    exact hv

/-- C18: on a non-empty collection with the cursor in range, the scroll
offset a multiple of 3 and the cursor among the nine positions from the
scroll offset on, each of Right, Left, Down and Up leaves the cursor among
the nine positions from the (new) scroll offset on. -/
theorem navigation_stays_in_viewport (m : Menu) (_hne : m.m_entries ≠ [])
    (hlen : m.m_entries.length < U64) (hi : m.m_index < m.m_entries.length)
    (h3 : m.m_start % 3 = 0) (hv : in_viewport m) :
    in_viewport (Right m) ∧ in_viewport (Left m) ∧ in_viewport (Down m) ∧
    in_viewport (Up m) := by
  refine ⟨?_, ?_, in_viewport_Down m hlen hi hv, in_viewport_Up m (by omega) h3 hv⟩
  · have h2 : add64 m.m_index 1 = m.m_index + 1 := add64_of_lt (by omega)
    unfold Right
    rw [h2]
    split
    · rename_i hc
      exact in_viewport_SetIndex m _ (by omega) (by omega)
    · exact hv
  · unfold Left
    split
    · rename_i hc
      rw [sub64_of_le (by omega) (by omega)]
      exact in_viewport_SetIndex m _ (by omega) (by omega)
    · exact hv

/-- C18 on 13 entries with the cursor at 9 and the scroll offset at 3: Down
moves the cursor to 12 and the scroll offset to 6. -/
theorem navigation_stays_in_viewport_witness :
    (mkMenu 13 9 3).m_index < (mkMenu 13 9 3).m_entries.length ∧
    (mkMenu 13 9 3).m_start % 3 = 0 ∧ in_viewport (mkMenu 13 9 3) ∧
    (Down (mkMenu 13 9 3)).m_index = 12 ∧ (Down (mkMenu 13 9 3)).m_start = 6 ∧
    in_viewport (Down (mkMenu 13 9 3)) :=
  ⟨by decide, by decide, by decide, by decide, by decide,
    (navigation_stays_in_viewport (mkMenu 13 9 3) (by decide) (by decide) (by decide)
      (by decide) (by decide)).2.2.1⟩

/-- A successful delete keeps the cursor in the viewport when the cursor is
not on the first position of a scrolled viewport. -/
theorem Delete_in_viewport (m : Menu) (hi : m.m_index < U64) (hv : in_viewport m)
    (h : m.m_start < m.m_index ∨ m.m_start = 0) :
    in_viewport (Delete_callback m (some 1) 0) := by
  unfold Delete_callback
  dsimp only
  rw [if_pos (by decide), if_pos rfl]
  by_cases h0 : m.m_index = 0
  · rw [if_neg (fun hne => hne h0)]
    unfold in_viewport
    rw [SetIndex_m_index, SetIndex_m_start, if_pos rfl]
    omega
  · rw [if_pos h0, sub64_of_le (by omega) hi]
    exact in_viewport_SetIndex
      (m := { m with m_entries := m.m_entries.eraseIdx m.m_index }) _
      (show m.m_start ≤ m.m_index - 1 by omega) (show m.m_index - 1 < m.m_start + 9 by omega)

/-- C19, evaluated where it fails: after a scan of 13 entries and Down, Down,
Down, Up, Up the cursor and the scroll offset are both 3; a successful delete
then leaves 12 entries, the cursor at 2 and the scroll offset at 3, and the
next `Draw` binds positions 3 to 11 only. -/
theorem Delete_leaves_viewport :
    (run [Step.DOWN, Step.DOWN, Step.DOWN, Step.UP, Step.UP] (scannedMenu 13)).m_index = 3 ∧
    (run [Step.DOWN, Step.DOWN, Step.DOWN, Step.UP, Step.UP] (scannedMenu 13)).m_start = 3 ∧
    in_viewport (run [Step.DOWN, Step.DOWN, Step.DOWN, Step.UP, Step.UP] (scannedMenu 13)) ∧
    (Delete_callback (run [Step.DOWN, Step.DOWN, Step.DOWN, Step.UP, Step.UP] (scannedMenu 13))
      (some 1) 0).m_entries.length = 12 ∧
    (Delete_callback (run [Step.DOWN, Step.DOWN, Step.DOWN, Step.UP, Step.UP] (scannedMenu 13))
      (some 1) 0).m_index = 2 ∧
    (Delete_callback (run [Step.DOWN, Step.DOWN, Step.DOWN, Step.UP, Step.UP] (scannedMenu 13))
      (some 1) 0).m_start = 3 ∧
    ¬ in_viewport (Delete_callback
      (run [Step.DOWN, Step.DOWN, Step.DOWN, Step.UP, Step.UP] (scannedMenu 13)) (some 1) 0) ∧
    (Draw frameFail.collab (Delete_callback
      (run [Step.DOWN, Step.DOWN, Step.DOWN, Step.UP, Step.UP] (scannedMenu 13))
      (some 1) 0)).map (fun r => r.2.visited) = some [3, 4, 5, 6, 7, 8, 9, 10, 11] := by
  decide

/-! ## Values that are not numbers -/

theorem atoi_digits_not_digit (c : Char) (cs : List Char) (h : isdigit c = false) :
    atoi_digits (c :: cs) 0 = 0 := by
  unfold atoi_digits
  rw [if_neg (by rw [h]; decide)]

theorem long_to_int_small (n : Nat) (h : n < 2147483648) :
    long_to_int (strtol_clamp (n : Int)) = (n : Int) := by
  have h1 : strtol_clamp (n : Int) = (n : Int) := by
    unfold strtol_clamp
    rw [if_neg (by omega), if_neg (by omega)]
  rw [h1]
  unfold long_to_int
  rw [if_pos ⟨by omega, by omega⟩]

theorem atoi_eq_zero (s : String) (h : atoi_has_number s = false) : atoi s = 0 := by
  have hz : long_to_int (strtol_clamp ((0 : Nat) : Int)) = 0 := by decide
  have hnz : long_to_int (strtol_clamp (- ((0 : Nat) : Int))) = 0 := by decide
  unfold atoi_has_number at h
  unfold atoi
  cases hs : atoi_skip s.data with
  | nil => rfl
  | cons c cs =>
    rw [hs] at h
    dsimp only at h ⊢
    by_cases hsign : c.toNat = 45 ∨ c.toNat = 43
    · rw [if_pos hsign] at h
      have hd : atoi_digits cs 0 = 0 := by
        cases cs with
        | nil => rfl
        | cons d ds => exact atoi_digits_not_digit d ds h
      rw [hd]
      by_cases h45 : c.toNat = 45
      · rw [if_pos h45]
        exact hnz
      · have h43 : c.toNat = 43 := hsign.resolve_left h45
        rw [if_neg h45, if_pos h43]
        exact hz
    · rw [if_neg hsign] at h
      rw [if_neg (fun h45 => hsign (Or.inl h45)), if_neg (fun h43 => hsign (Or.inr h43)),
        atoi_digits_not_digit c cs h]
      exact hz

theorem isdigit_not_isspace (c : Char) (h : isdigit c = true) :
    isspace c = false ∧ c.toNat ≠ 45 ∧ c.toNat ≠ 43 := by
  unfold isdigit at h
  unfold isspace
  have h2 : 48 ≤ c.toNat ∧ c.toNat ≤ 57 := of_decide_eq_true h
  refine ⟨decide_eq_false (by omega), by omega, by omega⟩

theorem atoi_skip_spaces :
    ∀ (ws : List Char) (c : Char) (l : List Char), (∀ w ∈ ws, isspace w = true) →
      isspace c = false → atoi_skip (ws ++ c :: l) = c :: l
  | [], c, l, _, hc => by
    simp only [List.nil_append, atoi_skip, hc]
    rfl
  | w :: ws, c, l, hws, hc => by
    simp only [List.cons_append, atoi_skip, hws w (List.mem_cons_self _ _), if_true]
    exact atoi_skip_spaces ws c l (fun x hx => hws x (List.mem_cons_of_mem _ hx)) hc

theorem atoi_digits_run :
    ∀ (ds rest : List Char) (acc : Nat), (∀ d ∈ ds, isdigit d = true) →
      (∀ c, rest.head? = some c → isdigit c = false) →
      atoi_digits (ds ++ rest) acc = ds.foldl (fun a c => a * 10 + (c.toNat - 48)) acc
  | [], [], _, _, _ => rfl
  | [], c :: rest, acc, _, hrest => by
    have hc : isdigit c = false := hrest c rfl
    simp only [List.nil_append, atoi_digits, hc, List.foldl_nil]
    rfl
  | d :: ds, rest, acc, hds, hrest => by
    simp only [List.cons_append, atoi_digits, hds d (List.mem_cons_self _ _), if_true,
      List.foldl_cons]
    exact atoi_digits_run ds rest _ (fun x hx => hds x (List.mem_cons_of_mem _ hx)) hrest

/-- A value made of white space, a non-empty run of digits spelling a number
below `2 ^ 31`, and a rest that does not go on with a digit, is read by `atoi`
as that number. -/
theorem atoi_leading_digits (s : String) (ws ds rest : List Char)
    (hs : s.data = ws ++ ds ++ rest) (hws : ∀ w ∈ ws, isspace w = true) (hne : ds ≠ [])
    (hds : ∀ d ∈ ds, isdigit d = true) (hrest : ∀ c, rest.head? = some c → isdigit c = false)
    (hsmall : decimal_value ds < 2147483648) :
    atoi s = (decimal_value ds : Int) := by
  cases ds with
  | nil => exact absurd rfl hne
  | cons d ds2 =>
    obtain ⟨hsp, h45, h43⟩ := isdigit_not_isspace d (hds d (List.mem_cons_self _ _))
    have hskip : atoi_skip s.data = d :: (ds2 ++ rest) := by
      rw [hs, List.append_assoc, List.cons_append]
      exact atoi_skip_spaces ws d _ hws hsp
    have hrun : atoi_digits (d :: (ds2 ++ rest)) 0 = decimal_value (d :: ds2) := by
      rw [← List.cons_append]
      exact atoi_digits_run (d :: ds2) rest 0 hds hrest
    unfold atoi
    rw [hskip]
    dsimp only
    rw [if_neg h45, if_neg h43, hrun]
    exact long_to_int_small _ hsmall

theorem int_to_unsigned_small (n : Nat) (h : n < 2147483648) :
    int_to_u64 (n : Int) = n ∧ int_to_u32 (n : Int) = n := by
  unfold int_to_u64 int_to_u32
  constructor <;> omega

/-- C16, as amended: when the visitor applies a record to an entry, the key
`timestamp` stores `atoi(Value)` as the entry's usage timestamp and the key
`launch_count` stores it as the launch count. That number is 0 when the value
does not start, after white space and an optional sign, with a digit; it is
the number the leading digits spell when the value is white space, then
digits spelling a number below `2 ^ 31`, then anything that does not go on
with a digit. `ini_browse` goes on with the records that follow. -/
theorem malformed_value_is_read_by_atoi (user : IniUser) (t : IniTriple) (i : Nat)
    (e : NroEntry) (htarget : ini_target user t = some i) (he : user.entires[i]? = some e) :
    (t.Key = "timestamp" →
      (ini_visitor user t).1.entires[i]? =
        some { e with hbini := { e.hbini with timestamp := int_to_u64 (atoi t.Value) } }) ∧
    (t.Key = "launch_count" →
      (ini_visitor user t).1.entires[i]? =
        some { e with hbini := { e.hbini with launch_count := int_to_u32 (atoi t.Value) } }) ∧
    (atoi_has_number t.Value = false →
      atoi t.Value = 0 ∧ int_to_u64 (atoi t.Value) = 0 ∧ int_to_u32 (atoi t.Value) = 0) ∧
    (∀ ws ds rest : List Char, t.Value.data = ws ++ ds ++ rest →
      (∀ w ∈ ws, isspace w = true) → ds ≠ [] → (∀ d ∈ ds, isdigit d = true) →
      (∀ c, rest.head? = some c → isdigit c = false) → decimal_value ds < 2147483648 →
      atoi t.Value = (decimal_value ds : Int) ∧
      int_to_u64 (atoi t.Value) = decimal_value ds ∧
      int_to_u32 (atoi t.Value) = decimal_value ds) ∧
    (∀ ts, ini_browse ini_visitor (t :: ts) user =
      ini_browse ini_visitor ts (ini_visitor user t).1) := by
  have hent : (ini_visitor user t).1.entires[i]? =
      some { e with hbini := ini_assign t.Key t.Value e.hbini } := by
    rw [ini_visitor_fst, htarget]
    dsimp only
    rw [getElem?_ini_write, if_pos rfl, he]
    rfl
  refine ⟨?_, ?_, ?_, ?_, ?_⟩
  · intro hk
    rw [hent]
    unfold ini_assign
    rw [if_pos hk]
  · intro hk
    have hk2 : ¬ t.Key = "timestamp" := by
      rw [hk]
      decide
    rw [hent]
    unfold ini_assign
    rw [if_neg hk2, if_pos hk]
  · intro hn
    rw [atoi_eq_zero t.Value hn]
    exact ⟨rfl, by decide, by decide⟩
  · intro ws ds rest hs hws hne hds hrest hsmall
    rw [atoi_leading_digits t.Value ws ds rest hs hws hne hds hrest hsmall]
    exact ⟨rfl, int_to_unsigned_small _ hsmall⟩
  · intro ts
    have h1 : (ini_visitor user t).2 = 1 := rfl
    conv => lhs; unfold ini_browse
    rw [h1, if_neg (by decide)]

/-- C16 on the entry A: the record (A's path, timestamp, "abc") stores the
timestamp 0, and the value "12abc", digits "12" followed by "abc", is read
as 12. -/
theorem malformed_value_is_read_by_atoi_witness :
    ini_target userA ⟨"/switch/A.nro", "timestamp", "abc"⟩ = some 0 ∧
    userA.entires[0]? = some entryA ∧
    atoi_has_number "abc" = false ∧
    (ini_visitor userA ⟨"/switch/A.nro", "timestamp", "abc"⟩).1.entires[0]? =
      some { entryA with hbini := { entryA.hbini with timestamp := 0 } } ∧
    ini_target userA ⟨"/switch/A.nro", "timestamp", "12abc"⟩ = some 0 ∧
    int_to_u64 (atoi "12abc") = decimal_value ['1', '2'] ∧ decimal_value ['1', '2'] = 12 :=
  ⟨by decide, by decide, by decide,
    ((malformed_value_is_read_by_atoi userA ⟨"/switch/A.nro", "timestamp", "abc"⟩ 0 entryA
      (by decide) (by decide)).1 rfl).trans (by decide),
    by decide,
    ((malformed_value_is_read_by_atoi userA ⟨"/switch/A.nro", "timestamp", "12abc"⟩ 0 entryA
      (by decide) (by decide)).2.2.2.1 [] ['1', '2'] ['a', 'b', 'c'] (by decide) (by decide)
      (by decide) (by decide) (by decide) (by decide)).2.1,
    by decide⟩

/-- C16 as stated fails: "12abc" and "7 days" are not decimal integers, yet
the merge stores 12 as the timestamp and 7 as the launch count. -/
theorem malformed_value_with_digits_is_not_zero :
    (merge_playlog [entryA]
      [⟨"/switch/A.nro", "timestamp", "12abc"⟩,
        ⟨"/switch/A.nro", "launch_count", "7 days"⟩]).map (fun e => e.hbini) =
      [{ timestamp := 12, launch_count := 7 }] ∧
    atoi "12abc" = 12 ∧ atoi "7 days" = 7 := by
  decide

/-- The number `atoi` reads is cut to an `int` before it is stored:
"2147483648" is stored as the timestamp `2 ^ 64 - 2 ^ 31` and "4294967296" as
0, and the largest `int`, "2147483647", is stored as it is. -/
theorem atoi_cuts_to_int :
    atoi "2147483648" = -2147483648 ∧
    int_to_u64 (atoi "2147483648") = 18446744071562067968 ∧
    int_to_u64 (atoi "4294967296") = 0 ∧
    int_to_u64 (atoi "2147483647") = 2147483647 := by
  decide

end Homebrew
